import Mathlib

/-!
Verification development for the Notion API wrapper core of this repository:
the markdown/block conversion utilities (notion_api_mcp/utils/formatting.py),
the property models (notion_api_mcp/models/properties.py), the blocks client
(notion_api_mcp/api/blocks.py) and the pages client (notion_api_mcp/api/pages.py).

Python strings are embedded as lists of characters (`Pstr`); Python `None`
versus missing dictionary keys are embedded as `Option`; functions that can
raise `ValueError` / `KeyError` return `Except PyErr` or `Option`.
-/

namespace NotionMcp

/-- A Python string, embedded as its list of characters. -/
abbrev Pstr := List Char

/-- Character list of a Lean string literal. -/
def lit (s : String) : Pstr := s.data

/-- The characters Python `str.strip` / `str.rstrip` remove
(ASCII whitespace; the embedding restricts to ASCII). -/
def pyIsSpace (c : Char) : Bool :=
  c == ' ' || c == '\t' || c == '\n' || c == '\x0b' || c == '\x0c' || c == '\r'

/-- Python `str.lstrip()`. -/
def lstrip (s : Pstr) : Pstr := s.dropWhile pyIsSpace

/-- Python `str.rstrip()`. -/
def rstrip (s : Pstr) : Pstr := (s.reverse.dropWhile pyIsSpace).reverse

/-- Python `str.strip()`. -/
def strip (s : Pstr) : Pstr := lstrip (rstrip s)

/-- Python `str.startswith(p)`. -/
def startsWith (s p : Pstr) : Bool := p.isPrefixOf s

/-- ASCII decimal digits (the embedding of the regex class `\d`). -/
def digitChars : List Char := ['0', '1', '2', '3', '4', '5', '6', '7', '8', '9']

/-- Decidable test that a character is an ASCII decimal digit. -/
def isDig (c : Char) : Bool := c ∈ digitChars

/-- Python `markdown.split(chr(10))`: split a string at every newline. -/
def splitNL : Pstr → List Pstr
  | [] => [[]]
  | c :: t =>
    if c = '\n' then [] :: splitNL t
    else
      match splitNL t with
      | [] => [[c]]
      | l :: ls => (c :: l) :: ls

/-- Python `(chr(10)).join(lines)`. -/
def joinNL : List Pstr → Pstr
  | [] => []
  | [l] => l
  | l :: ls => l ++ '\n' :: joinNL ls

/-- Fuel-driven decimal rendering helper (most significant digit first). -/
def natDigitsAux : Nat → Nat → List Char → List Char
  | 0, _, acc => acc
  | fuel + 1, n, acc =>
    if n = 0 then acc
    else natDigitsAux fuel (n / 10) (Nat.digitChar (n % 10) :: acc)

/-- Decimal rendering of a natural number, the embedding of Python `str(n)`
as used by the f-string in `blocks_to_markdown`. -/
def natDigits (n : Nat) : Pstr :=
  if n = 0 then ['0'] else natDigitsAux n n []

/-- Errors raised by the embedded Python code.  All constructors other than
`keyError` model a `ValueError` (pydantic `ValidationError`); `keyError`
models the `KeyError`/`IndexError` of a failed dictionary/list lookup. -/
inductive PyErr
  | contentEmpty
  | contentTooLong
  | invalidAnnotations
  | colorNotString
  | invalidBlockType (t : Pstr)
  | lineError (lineNo : Nat) (e : PyErr)
  | unclosedCodeBlock
  | mustProvideArgs
  | batchSizeTooLarge
  | notFound
  | taskEmpty
  | taskTooLong
  | descriptionTooLong
  | patternMismatch
  | keyError
  deriving DecidableEq, Repr

/-- Value of one annotation entry: Python booleans or the color string. -/
inductive AnnVal
  | b (v : Bool)
  | s (v : Pstr)
  deriving DecidableEq, Repr

/-- An annotations dictionary, embedded as an association list. -/
abbrev Annots := List (Pstr × AnnVal)

/-- The six annotation keys accepted by the validators in formatting.py and
models/properties.py. -/
def validAnnKeys : List Pstr :=
  [lit "bold", lit "italic", lit "strikethrough", lit "underline", lit "code", lit "color"]

/-- One rich text run as built by `create_rich_text`: the dictionary
with type "text", the text content, an optional link url and optional
annotations. -/
structure RichText where
  content : Pstr
  link : Option Pstr := none
  annotations : Option Annots := none
  deriving DecidableEq, Repr

/-- The inner dictionary of a block (the value stored under the key equal to
the block type).  `none` embeds an absent key. -/
structure BlockData where
  rich_text : Option (List RichText) := none
  language : Option Pstr := none
  content : Option Pstr := none
  checked : Option Bool := none
  is_subtask : Option Bool := none
  deriving DecidableEq, Repr

/-- A Notion block object: `{"type": t, t: {...}}`. -/
structure Block where
  btype : Pstr
  data : BlockData
  deriving DecidableEq, Repr

/-- The values of the `BlockType` enum in models/__init__.py. -/
def knownBlockTypes : List Pstr :=
  [lit "paragraph", lit "heading_1", lit "heading_2", lit "heading_3",
   lit "bulleted_list_item", lit "numbered_list_item", lit "to_do",
   lit "toggle", lit "code", lit "quote", lit "callout", lit "divider"]

/-- `RichTextContent.validate_content` of models/properties.py: rejects an
empty or whitespace-only string, rejects length above `MAX_TEXT_LENGTH`
(2000), returns the stripped string. -/
def validateContent (v : Pstr) : Except PyErr Pstr :=
  if v = [] ∨ strip v = [] then .error .contentEmpty
  else if v.length > 2000 then .error .contentTooLong
  else .ok (strip v)

/-- Python truthiness of an optional dictionary / list / string:
`none`, the empty list and the empty string are falsy. -/
def truthyAnnots : Option Annots → Option Annots
  | none => none
  | some a => if a = [] then none else some a

/-- Python truthiness of an optional string. -/
def truthyStr : Option Pstr → Option Pstr
  | none => none
  | some s => if s = [] then none else some s

/-- The annotation validation of `create_rich_text` (guarded by Python
truthiness, so an empty dictionary is not validated): unknown keys are
rejected, then a non-string color value is rejected. -/
def checkAnnotsWithColor (annotations : Option Annots) : Except PyErr Unit :=
  match truthyAnnots annotations with
  | some annots =>
    if annots.any (fun kv => !(kv.1 ∈ validAnnKeys)) then .error .invalidAnnotations
    else
      match annots.lookup (lit "color") with
      | some (.b _) => .error .colorNotString
      | _ => .ok ()
  | none => .ok ()

/-- `create_rich_text(content, link, annotations)` of formatting.py.
The `content` argument is `Option Pstr` because the function is also called
with `None`; `if not content` is `content = none ∨ content = some []`. -/
def create_rich_text (content : Option Pstr) (link : Option Pstr := none)
    (annotations : Option Annots := none) : Except PyErr (List RichText) :=
  if content = none ∨ content = some [] then .error .contentEmpty
  else do
    let _ ← checkAnnotsWithColor annotations
    let vc ← validateContent (content.getD [])
    .ok [{ content := vc, link := truthyStr link,
           annotations := truthyAnnots annotations }]

/-- The `block_type` argument of formatting.py `create_block`:
either a raw string or a `BlockType` enum member (which, being a str-enum,
is identified with its string value but is already known to be valid). -/
inductive BTArg
  | s (t : Pstr)
  | e (t : Pstr)
  deriving DecidableEq, Repr

/-- String value of a `BTArg` (str-enum members compare by value). -/
def BTArg.val : BTArg → Pstr
  | .s t => t
  | .e t => t

/-- The `extra_props` dictionary of formatting.py `create_block`, restricted
to the keys the repository passes (`checked` from the to_do parser branches,
`language` from the code fence branch). -/
structure ExtraProps where
  checked : Option Bool := none
  language : Option Pstr := none
  deriving DecidableEq, Repr

/-- The string-to-enum conversion step of `create_block`: a raw string
outside the enum raises "Invalid block type"; an enum member passes. -/
def convertBType : BTArg → Except PyErr Unit
  | .s t => if t ∈ knownBlockTypes then .ok () else .error (.invalidBlockType t)
  | .e _ => .ok ()

/-- The annotation validation of `create_block` (key check only; no color
check at this level). -/
def checkAnnKeys (annotations : Option Annots) : Except PyErr Unit :=
  match truthyAnnots annotations with
  | some annots =>
    if annots.any (fun kv => !(kv.1 ∈ validAnnKeys)) then .error .invalidAnnotations
    else .ok ()
  | none => .ok ()

/-- `create_block(content, block_type, annotations, extra_props)` of
formatting.py.  Checks, in source order: empty content (except for code
blocks; str-enum comparison is by value), string-to-enum conversion
(unknown strings raise "Invalid block type"), annotation keys; then builds
the block, treating code blocks specially (language inside a nominal
rich_text run plus a `language` key; raw code under a separate `content`
key only when non-empty). -/
def create_block (content : Pstr) (block_type : BTArg)
    (annotations : Option Annots := none) (extra_props : ExtraProps := {}) :
    Except PyErr Block :=
  if content = [] ∧ block_type.val ≠ lit "code" then .error .contentEmpty
  else do
    let _ ← convertBType block_type
    let _ ← checkAnnKeys annotations
    if block_type.val = lit "code" then
      let withLang : BlockData ←
        match extra_props.language with
        | some lang => do
          let rt ← create_rich_text (some lang)
          pure { rich_text := some rt, language := some lang }
        | none => pure {}
      let data : BlockData :=
        if content ≠ [] then { withLang with content := some content } else withLang
      .ok { btype := block_type.val, data := data }
    else do
      let rt ← create_rich_text (some content) none annotations
      .ok { btype := block_type.val,
            data := { rich_text := some rt,
                      checked := extra_props.checked,
                      language := extra_props.language } }

/-- The regex test of the numbered-list branch, for the raw pattern
digits-dot-space anchored at line start (ASCII digits): a non-empty maximal
digit prefix followed by ". ". -/
def numberedMatch (l : Pstr) : Bool :=
  let ds := l.takeWhile isDig
  ds ≠ [] && startsWith (l.drop ds.length) (lit ". ")

/-- `re.sub` removing the digits-dot-space match from the line start. -/
def dropNumberedMatch (l : Pstr) : Pstr :=
  l.drop ((l.takeWhile isDig).length + 2)

/-- The per-line dispatch of `parse_markdown_to_blocks` outside code-block
mode (the `try` body): headings, bulleted, numbered, to_do, quote, default
paragraph, in source order. -/
def parseLineBlock (line : Pstr) : Except PyErr Block :=
  if startsWith line (lit "# ") then
    create_block (strip (line.drop 2)) (.e (lit "heading_1"))
  else if startsWith line (lit "## ") then
    create_block (strip (line.drop 3)) (.e (lit "heading_2"))
  else if startsWith line (lit "### ") then
    create_block (strip (line.drop 4)) (.e (lit "heading_3"))
  else if startsWith line (lit "- ") then
    create_block (strip (line.drop 2)) (.e (lit "bulleted_list_item"))
  else if numberedMatch line then
    create_block (strip (dropNumberedMatch line)) (.e (lit "numbered_list_item"))
  else if startsWith line (lit "[ ] ") then
    create_block (strip (line.drop 4)) (.e (lit "to_do")) none { checked := some false }
  else if startsWith line (lit "[x] ") then
    create_block (strip (line.drop 4)) (.e (lit "to_do")) none { checked := some true }
  else if startsWith line (lit "> ") then
    create_block (strip (line.drop 2)) (.e (lit "quote"))
  else
    create_block (strip line) (.e (lit "paragraph"))

/-- Wrap a `ValueError` with the 1-based line number, as the
`except ValueError` clause of `parse_markdown_to_blocks` does. -/
def wrapLineErr (i : Nat) : Except PyErr Block → Except PyErr Block
  | .error e => .error (.lineError (i + 1) e)
  | .ok b => .ok b

/-- The code-fence close: `create_block` on the accumulated content with the
captured language (truthiness: the empty language adds no `language` key).
This call sits before the `try`, so its errors are not wrapped. -/
def closeCodeBlock (codeContent : List Pstr) (codeLanguage : Pstr) :
    Except PyErr Block :=
  create_block (joinNL codeContent) (.e (lit "code")) none
    { language := if codeLanguage ≠ [] then some codeLanguage else none }

/-- The while loop of `parse_markdown_to_blocks`: one recursive step per
line, carrying the index `i` (for error messages), the code-block mode flag
and the accumulated code lines and language.  Every line is right-stripped
first; blank lines outside code mode are skipped; fence lines toggle code
mode; in code mode every other rule is bypassed. -/
def parseGo : List Pstr → Nat → Bool → List Pstr → Pstr → Except PyErr (List Block)
  | [], _, inCode, _, _ =>
    if inCode then .error .unclosedCodeBlock else .ok []
  | l :: rest, i, inCode, codeContent, codeLanguage =>
    let line := rstrip l
    if line = [] ∧ ¬inCode then
      parseGo rest (i + 1) inCode codeContent codeLanguage
    else if startsWith line (lit "```") then
      if ¬inCode then
        parseGo rest (i + 1) true [] (if line.length > 3 then line.drop 3 else [])
      else do
        let b ← closeCodeBlock codeContent codeLanguage
        let bs ← parseGo rest (i + 1) false codeContent []
        .ok (b :: bs)
    else if inCode then
      parseGo rest (i + 1) true (codeContent ++ [line]) codeLanguage
    else do
      let b ← wrapLineErr i (parseLineBlock line)
      let bs ← parseGo rest (i + 1) inCode codeContent codeLanguage
      .ok (b :: bs)

/-- `parse_markdown_to_blocks(markdown)` of formatting.py. -/
def parse_markdown_to_blocks (markdown : Pstr) : Except PyErr (List Block) :=
  if markdown = [] then .ok []
  else parseGo (splitNL markdown) 0 false [] []

/-- `block[block_type]["rich_text"][0]["text"]["content"]`: `none` embeds the
`KeyError`/`IndexError` raised when the key is missing or the list empty. -/
def firstRichTextContent (d : BlockData) : Option Pstr :=
  (d.rich_text.bind List.head?).map RichText.content

/-- The loop body of `blocks_to_markdown`: produces the list of strings the
Python code appends to `markdown` (code blocks first, then the rich-text
kinds with the auto-incrementing numbered counter `ctr`, then the
blank-line separator rules).  `multi` is `len(blocks) > 1`, fixed at entry.
A `none` result embeds an uncaught `KeyError`/`IndexError`. -/
def btmGo : List Block → Bool → Nat → Option (List Pstr)
  | [], _, _ => some []
  | b :: rest, multi, ctr =>
    if b.btype = lit "code" then do
      let language := b.data.language.getD []
      let codeContent := b.data.content.getD []
      let contentPiece ←
        if codeContent ≠ [] then some codeContent
        else firstRichTextContent b.data
      let sep : List Pstr := if rest ≠ [] then [[]] else []
      let tail ← btmGo rest multi ctr
      some ((lit "```" ++ language) :: contentPiece :: lit "```" :: sep ++ tail)
    else do
      let content ← firstRichTextContent b.data
      let piecesAndCtr : List Pstr × Nat :=
        if b.btype = lit "heading_1" then ([lit "# " ++ content], 0)
        else if b.btype = lit "heading_2" then ([lit "## " ++ content], 0)
        else if b.btype = lit "heading_3" then ([lit "### " ++ content], 0)
        else if b.btype = lit "bulleted_list_item" then ([lit "- " ++ content], 0)
        else if b.btype = lit "numbered_list_item" then
          ([natDigits (ctr + 1) ++ lit ". " ++ content], ctr + 1)
        else if b.btype = lit "to_do" then
          ([(if b.data.checked.getD false then lit "[x] " else lit "[ ] ") ++ content], 0)
        else if b.btype = lit "quote" then ([lit "> " ++ content], 0)
        else if b.btype = lit "paragraph" then ([content], 0)
        else ([], ctr)
      let sep : List Pstr :=
        match rest with
        | [] => if multi then [[]] else []
        | nb :: _ =>
          if (b.btype = lit "numbered_list_item" ∨ b.btype = lit "bulleted_list_item")
              ∧ b.btype = nb.btype then []
          else [[]]
      let tail ← btmGo rest multi piecesAndCtr.2
      some (piecesAndCtr.1 ++ sep ++ tail)

/-- `blocks_to_markdown(blocks)` of formatting.py: join the accumulated
strings with newlines and strip the result.  `none` embeds an uncaught
lookup error. -/
def blocks_to_markdown (blocks : List Block) : Option Pstr :=
  (btmGo blocks (blocks.length > 1) 0).map (fun ps => strip (joinNL ps))

/-- The block kinds whose `blocks_to_markdown` branch resets the numbered
counter (the code branch and the fall-through for unhandled kinds do not). -/
def resetsCounter (t : Pstr) : Bool :=
  t = lit "heading_1" || t = lit "heading_2" || t = lit "heading_3" ||
  t = lit "bulleted_list_item" || t = lit "to_do" || t = lit "quote" ||
  t = lit "paragraph"

/-- Stateless position count: the number of numbered items inside the
maximal suffix of `pre` that contains no counter-resetting block.  For a
numbered block `b`, `runCounter (pre ++ [b])` is its position within its
maximal run. -/
def runCounter (pre : List Block) : Nat :=
  (pre.reverse.takeWhile (fun b => !resetsCounter b.btype)).countP
    (fun b => b.btype = lit "numbered_list_item")

/-- Reference serializer, identical to `btmGo` except that the numeral of a
numbered item is recomputed statelessly from the processed prefix `pre` as
the position of the item within its maximal run (runs broken by the seven
resetting kinds; code blocks and unhandled kinds do not break runs). -/
def btmSpecGo : List Block → Bool → List Block → Option (List Pstr)
  | [], _, _ => some []
  | b :: rest, multi, pre =>
    if b.btype = lit "code" then do
      let language := b.data.language.getD []
      let codeContent := b.data.content.getD []
      let contentPiece ←
        if codeContent ≠ [] then some codeContent
        else firstRichTextContent b.data
      let sep : List Pstr := if rest ≠ [] then [[]] else []
      let tail ← btmSpecGo rest multi (pre ++ [b])
      some ((lit "```" ++ language) :: contentPiece :: lit "```" :: sep ++ tail)
    else do
      let content ← firstRichTextContent b.data
      let pieces : List Pstr :=
        if b.btype = lit "heading_1" then [lit "# " ++ content]
        else if b.btype = lit "heading_2" then [lit "## " ++ content]
        else if b.btype = lit "heading_3" then [lit "### " ++ content]
        else if b.btype = lit "bulleted_list_item" then [lit "- " ++ content]
        else if b.btype = lit "numbered_list_item" then
          [natDigits (runCounter (pre ++ [b])) ++ lit ". " ++ content]
        else if b.btype = lit "to_do" then
          [(if b.data.checked.getD false then lit "[x] " else lit "[ ] ") ++ content]
        else if b.btype = lit "quote" then [lit "> " ++ content]
        else if b.btype = lit "paragraph" then [content]
        else []
      let sep : List Pstr :=
        match rest with
        | [] => if multi then [[]] else []
        | nb :: _ =>
          if (b.btype = lit "numbered_list_item" ∨ b.btype = lit "bulleted_list_item")
              ∧ b.btype = nb.btype then []
          else [[]]
      let tail ← btmSpecGo rest multi (pre ++ [b])
      some (pieces ++ sep ++ tail)

/-- The reference serializer with position-based numbering. -/
def blocks_to_markdown_spec (blocks : List Block) : Option Pstr :=
  (btmSpecGo blocks (blocks.length > 1) []).map (fun ps => strip (joinNL ps))

/-- Position count as claimed: the maximal run of a numbered item consists
only of consecutive numbered items, broken by a block of ANY other kind
(including code blocks). -/
def runCounterClaim (pre : List Block) : Nat :=
  (pre.reverse.takeWhile (fun b => b.btype = lit "numbered_list_item")).length

/-- Serializer following the claimed counter semantics: identical to
`btmSpecGo` except that runs are broken by every non-numbered block. -/
def btmClaimGo : List Block → Bool → List Block → Option (List Pstr)
  | [], _, _ => some []
  | b :: rest, multi, pre =>
    if b.btype = lit "code" then do
      let language := b.data.language.getD []
      let codeContent := b.data.content.getD []
      let contentPiece ←
        if codeContent ≠ [] then some codeContent
        else firstRichTextContent b.data
      let sep : List Pstr := if rest ≠ [] then [[]] else []
      let tail ← btmClaimGo rest multi (pre ++ [b])
      some ((lit "```" ++ language) :: contentPiece :: lit "```" :: sep ++ tail)
    else do
      let content ← firstRichTextContent b.data
      let pieces : List Pstr :=
        if b.btype = lit "heading_1" then [lit "# " ++ content]
        else if b.btype = lit "heading_2" then [lit "## " ++ content]
        else if b.btype = lit "heading_3" then [lit "### " ++ content]
        else if b.btype = lit "bulleted_list_item" then [lit "- " ++ content]
        else if b.btype = lit "numbered_list_item" then
          [natDigits (runCounterClaim (pre ++ [b])) ++ lit ". " ++ content]
        else if b.btype = lit "to_do" then
          [(if b.data.checked.getD false then lit "[x] " else lit "[ ] ") ++ content]
        else if b.btype = lit "quote" then [lit "> " ++ content]
        else if b.btype = lit "paragraph" then [content]
        else []
      let sep : List Pstr :=
        match rest with
        | [] => if multi then [[]] else []
        | nb :: _ =>
          if (b.btype = lit "numbered_list_item" ∨ b.btype = lit "bulleted_list_item")
              ∧ b.btype = nb.btype then []
          else [[]]
      let tail ← btmClaimGo rest multi (pre ++ [b])
      some (pieces ++ sep ++ tail)

/-- The serializer the claim describes (counter reset by every
non-numbered block, code blocks included). -/
def blocks_to_markdown_claim (blocks : List Block) : Option Pstr :=
  (btmClaimGo blocks (blocks.length > 1) []).map (fun ps => strip (joinNL ps))

/-- A numbered list block with plain content, as the parser produces it. -/
def numBlock (c : Pstr) : Block :=
  { btype := lit "numbered_list_item", data := { rich_text := some [{ content := c }] } }

/-! Normalization used by the round-trip property: trim each line, drop
blank lines (exactly the normalization of the repository's round-trip
test). -/

/-- Trim every line and drop the blank ones. -/
def normLines (ls : List Pstr) : List Pstr :=
  (ls.map strip).filter (fun l => l ≠ [])

/-- Normalization of a markdown string: split into lines, trim each line,
drop blank lines. -/
def normalizeStr (s : Pstr) : List Pstr :=
  normLines (splitNL s)

/-- One markdown construct of the nine the parser recognizes.  A document
is a list of constructs; numbered items carry no numeral because canonical
numbering is assigned by the serializer's counter during rendering. -/
inductive MdItem
  | h1 (c : Pstr)
  | h2 (c : Pstr)
  | h3 (c : Pstr)
  | bullet (c : Pstr)
  | numbered (c : Pstr)
  | todo (checked : Bool) (c : Pstr)
  | quote (c : Pstr)
  | para (c : Pstr)
  | code (lang : Pstr) (ls : List Pstr)
  deriving DecidableEq, Repr

/-- Render a document to markdown lines, assigning numbered-list numerals
with the serializer's counter semantics: the counter resets after every
construct except numbered items (which increment it) and code blocks
(which leave it unchanged). -/
def renderGo : List MdItem → Nat → List Pstr
  | [], _ => []
  | .h1 c :: rest, _ => (lit "# " ++ c) :: renderGo rest 0
  | .h2 c :: rest, _ => (lit "## " ++ c) :: renderGo rest 0
  | .h3 c :: rest, _ => (lit "### " ++ c) :: renderGo rest 0
  | .bullet c :: rest, _ => (lit "- " ++ c) :: renderGo rest 0
  | .numbered c :: rest, ctr =>
    (natDigits (ctr + 1) ++ lit ". " ++ c) :: renderGo rest (ctr + 1)
  | .todo b c :: rest, _ =>
    ((if b then lit "[x] " else lit "[ ] ") ++ c) :: renderGo rest 0
  | .quote c :: rest, _ => (lit "> " ++ c) :: renderGo rest 0
  | .para c :: rest, _ => c :: renderGo rest 0
  | .code lang ls :: rest, ctr =>
    (lit "```" ++ lang) :: (ls ++ (lit "```") :: renderGo rest ctr)

/-- The markdown string of a document. -/
def renderDoc (doc : List MdItem) : Pstr :=
  joinNL (renderGo doc 0)

/-- The single rich text run the parser builds for clean content. -/
def rtOf (c : Pstr) : List RichText := [{ content := c }]

/-- The block sequence the parser produces for a clean document. -/
def blocksOf : List MdItem → List Block
  | [] => []
  | .h1 c :: rest =>
    { btype := lit "heading_1", data := { rich_text := some (rtOf c) } } :: blocksOf rest
  | .h2 c :: rest =>
    { btype := lit "heading_2", data := { rich_text := some (rtOf c) } } :: blocksOf rest
  | .h3 c :: rest =>
    { btype := lit "heading_3", data := { rich_text := some (rtOf c) } } :: blocksOf rest
  | .bullet c :: rest =>
    { btype := lit "bulleted_list_item", data := { rich_text := some (rtOf c) } }
      :: blocksOf rest
  | .numbered c :: rest =>
    { btype := lit "numbered_list_item", data := { rich_text := some (rtOf c) } }
      :: blocksOf rest
  | .todo b c :: rest =>
    { btype := lit "to_do", data := { rich_text := some (rtOf c), checked := some b } }
      :: blocksOf rest
  | .quote c :: rest =>
    { btype := lit "quote", data := { rich_text := some (rtOf c) } } :: blocksOf rest
  | .para c :: rest =>
    { btype := lit "paragraph", data := { rich_text := some (rtOf c) } } :: blocksOf rest
  | .code lang ls :: rest =>
    { btype := lit "code",
      data := { rich_text := if lang = [] then none else some (rtOf lang),
                language := if lang = [] then none else some lang,
                content := some (joinNL ls) } } :: blocksOf rest

/-- Clean construct content: non-empty, trimmed on both ends, within the
rich text length bound, and free of embedded newlines. -/
def CleanTxt (c : Pstr) : Prop :=
  c ≠ [] ∧ lstrip c = c ∧ rstrip c = c ∧ c.length ≤ 2000 ∧ '\n' ∉ c

instance (c : Pstr) : Decidable (CleanTxt c) := by
  unfold CleanTxt
  infer_instance

/-- Paragraph content that none of the other line rules captures. -/
def ParaFree (c : Pstr) : Prop :=
  startsWith c (lit "```") = false
  ∧ startsWith c (lit "# ") = false
  ∧ startsWith c (lit "## ") = false
  ∧ startsWith c (lit "### ") = false
  ∧ startsWith c (lit "- ") = false
  ∧ numberedMatch c = false
  ∧ startsWith c (lit "[ ] ") = false
  ∧ startsWith c (lit "[x] ") = false
  ∧ startsWith c (lit "> ") = false

instance (c : Pstr) : Decidable (ParaFree c) := by
  unfold ParaFree
  infer_instance

/-- Canonical-form conditions per construct: clean contents, a clean (or
absent) language tag, code lines right-stripped, newline-free and not
resembling a fence, and code content whose newline-join is non-empty (an
empty code block does not survive serialization, see the C10 analysis). -/
def CleanItem : MdItem → Prop
  | .h1 c => CleanTxt c
  | .h2 c => CleanTxt c
  | .h3 c => CleanTxt c
  | .bullet c => CleanTxt c
  | .numbered c => CleanTxt c
  | .todo _ c => CleanTxt c
  | .quote c => CleanTxt c
  | .para c => CleanTxt c ∧ ParaFree c
  | .code lang ls =>
    (lang = [] ∨ CleanTxt lang)
    ∧ (∀ l ∈ ls, rstrip l = l ∧ '\n' ∉ l ∧ startsWith l (lit "```") = false)
    ∧ joinNL ls ≠ []

instance : (it : MdItem) → Decidable (CleanItem it) := fun it => by
  cases it <;> simp only [CleanItem] <;> infer_instance

/-- A canonical document: every construct is clean. -/
def CleanDoc (doc : List MdItem) : Prop := ∀ it ∈ doc, CleanItem it

instance (doc : List MdItem) : Decidable (CleanDoc doc) := by
  unfold CleanDoc
  infer_instance

/-- An input block of `BlocksAPI.append_children` as far as the batching
logic inspects it: only its optional `id` key (`blocks[i - 1].get("id")`). -/
structure InBlock where
  id : Option Pstr := none
  deriving DecidableEq, Repr

/-- One PATCH request issued by `append_children`: the `children` chunk and
the optional `after` anchor (the key is omitted when the anchor is falsy). -/
structure ChildRequest where
  children : List InBlock
  after : Option Pstr := none
  deriving DecidableEq, Repr

/-- `BlocksAPI.append_children` of api/blocks.py, embedded as the sequence
of requests it issues.  `respLastId k` is the id of the last block the
remote returns for the k-th request when that result list is non-empty
(`result["results"][-1]["id"]`); the loop stores it into `after`, though
`after` is only read for the first chunk.  An error result means the
`ValueError` fired before any request was sent. -/
def append_children (blocks : List InBlock) (after : Option Pstr)
    (batch_size : Nat) (respLastId : Nat → Option Pstr) :
    Except PyErr (List ChildRequest) :=
  if batch_size > 100 then .error .batchSizeTooLarge
  else if blocks.length > batch_size then
    let starts := (List.range ((blocks.length + batch_size - 1) / batch_size)).map
      (fun k => k * batch_size)
    let final := starts.foldl
      (fun (st : List ChildRequest × Option Pstr) i =>
        let batch := (blocks.drop i).take batch_size
        let batchAfter := if i = 0 then st.2 else (blocks.get? (i - 1)).bind InBlock.id
        let reqs := st.1 ++ [{ children := batch, after := truthyStr batchAfter }]
        let after2 := match respLastId st.1.length with
          | some rid => some rid
          | none => st.2
        (reqs, after2))
      ([], after)
    .ok final.1
  else
    .ok [{ children := blocks, after := truthyStr after }]

/-- `BlocksAPI.create_block` of api/blocks.py (the client-side builder).
Structural kinds get bare blocks; any other kind string is used as the tag
without validation.  The `link` argument and its URL normalization are
omitted: the claims under verification call the builder without a link. -/
def blocksApiCreateBlock (block_type : Pstr) (content : Option Pstr)
    (annotations : Option Annots := none) (kwargs : ExtraProps := {})
    (kwIsSubtask : Option Bool := none) : Block :=
  if block_type = lit "divider" then { btype := lit "divider", data := {} }
  else if block_type = lit "column_list" then { btype := lit "column_list", data := {} }
  else if block_type = lit "column" then { btype := lit "column", data := {} }
  else
    let base : BlockData :=
      match content with
      | some c =>
        { rich_text := some [{ content := c, link := none,
                               annotations := truthyAnnots annotations }] }
      | none => {}
    let data : BlockData :=
      { base with
        checked := kwargs.checked
        language := kwargs.language
        is_subtask := kwIsSubtask }
    { btype := block_type, data := data }

/-- A remote block as the subtask logic of api/blocks.py reads it: its type,
its to_do `checked` and `is_subtask` flags, and the containing parent block
id (`block["parent"]["block_id"]`, absent when the parent is a page). -/
structure NBlock where
  btype : Pstr
  checked : Bool := false
  is_subtask : Bool := false
  parent : Option Pstr := none
  deriving DecidableEq, Repr

/-- The remote block store: id-to-block pairs in creation order.  The
remote service is external to the repository; it is modelled from the
interface the spec documents (ordered children, cursor pagination with
`page_size`). -/
abbrev Store := List (Pstr × NBlock)

/-- Look a block up by id (first match). -/
def lookupB (st : Store) (blockId : Pstr) : Option NBlock :=
  (st.find? (fun e => e.1 = blockId)).map Prod.snd

/-- `BlocksAPI.get_block`: 404 on an unknown id. -/
def get_block (st : Store) (blockId : Pstr) : Except PyErr NBlock :=
  match lookupB st blockId with
  | some b => .ok b
  | none => .error .notFound

/-- `BlocksAPI.update_block(id, {"to_do": {"checked": v}})`: sets the
to_do checked flag of the addressed block. -/
def update_checked (st : Store) (blockId : Pstr) (v : Bool) :
    Except PyErr Store :=
  match lookupB st blockId with
  | some _ => .ok (st.map (fun e => if e.1 = blockId then (e.1, { e.2 with checked := v }) else e))
  | none => .error .notFound

/-- `BlocksAPI.get_block_children(id, page_size)`: the first `page_size`
children of the parent, in order (one page, no pagination loop). -/
def get_block_children (st : Store) (parentId : Pstr) (pageSize : Nat) :
    List (Pstr × NBlock) :=
  (st.filter (fun e => e.2.parent = some parentId)).take pageSize

/-- `BlocksAPI.get_subtasks(parent_id, page_size=100)`: fetch one page of
children and filter to to_do blocks flagged as subtasks. -/
def get_subtasks (st : Store) (parentId : Pstr) (pageSize : Nat := 100) :
    List (Pstr × NBlock) :=
  (get_block_children st parentId pageSize).filter
    (fun e => e.2.btype = lit "to_do" && e.2.is_subtask)

/-- `BlocksAPI.update_subtask_status(subtask_id, checked, update_parent)`:
update the subtask, then (when requested and the subtask has a containing
parent block) recompute the parent checked flag as the conjunction over the
fetched sibling subtasks.  Returns the final store and the block the Python
function returns. -/
def update_subtask_status (st : Store) (subtaskId : Pstr) (checked : Bool)
    (update_parent : Bool) : Except PyErr (Store × NBlock) := do
  let st1 ← update_checked st subtaskId checked
  if update_parent then
    let subtask ← get_block st1 subtaskId
    match subtask.parent with
    | some parentId =>
      let siblings := get_subtasks st1 parentId 100
      let allChecked := siblings.all (fun e => e.2.checked)
      let st2 ← update_checked st1 parentId allChecked
      let response ← get_block st2 parentId
      .ok (st2, response)
    | none => do
      let s ← get_block st1 subtaskId
      .ok (st1, s)
  else do
    let s ← get_block st1 subtaskId
    .ok (st1, s)

/-- All direct subtask children of a parent in a store (no page limit):
the reference set the aggregate invariant quantifies over. -/
def allSubtaskChildren (st : Store) (parentId : Pstr) : List (Pstr × NBlock) :=
  (st.filter (fun e => e.2.parent = some parentId)).filter
    (fun e => e.2.btype = lit "to_do" && e.2.is_subtask)

/-- The request body of `PagesAPI.update_page`: `none` embeds an absent key.
Property values are opaque to the function; the properties dictionary is
embedded as an association list with opaque string values. -/
structure UpdateBody where
  properties : Option (List (Pstr × Pstr)) := none
  archived : Option Bool := none
  deriving DecidableEq, Repr

/-- `PagesAPI.update_page(page_id, properties, archived)` of api/pages.py,
embedded as the request body it sends.  Raises when both arguments are
`None`; `properties` enters the body only when truthy (`if properties:`),
`archived` whenever it is not `None`. -/
def update_page (properties : Option (List (Pstr × Pstr)))
    (archived : Option Bool) : Except PyErr UpdateBody :=
  if properties = none ∧ archived = none then .error .mustProvideArgs
  else
    .ok { properties := match properties with
            | some p => if p = [] then none else some p
            | none => none,
          archived := archived }

/-- A Python `datetime`, embedded by its `isoformat()` image
(`datetime.fromisoformat` inverts `isoformat`, per the stdlib contract). -/
structure Dt where
  iso : Pstr
  deriving DecidableEq, Repr

/-- The `TodoProperties` pydantic model of models/properties.py. -/
structure TodoProperties where
  task : Pstr
  description : Option Pstr := none
  due_date : Option Dt := none
  priority : Option Pstr := none
  tags : Option (List Pstr) := none
  status : Option Pstr := none
  deriving DecidableEq, Repr

/-- The description invariant: stripped, non-empty and bounded when present. -/
def DescOk : Option Pstr → Prop
  | some d => d ≠ [] ∧ strip d = d ∧ d.length ≤ 2000
  | none => True

instance : (o : Option Pstr) → Decidable (DescOk o) := fun o => by
  cases o <;> simp only [DescOk] <;> infer_instance

/-- The invariants the pydantic validators establish on a constructed
`TodoProperties` value: non-empty stripped bounded task, stripped non-empty
bounded description when present, pattern-restricted priority and status. -/
def ValidTodo (t : TodoProperties) : Prop :=
  (t.task ≠ [] ∧ strip t.task = t.task ∧ t.task.length ≤ 100)
  ∧ DescOk t.description
  ∧ t.priority ∈ [none, some (lit "high"), some (lit "medium"), some (lit "low")]
  ∧ t.status ∈ [none, some (lit "not_started"), some (lit "in_progress"),
                some (lit "completed")]

instance (t : TodoProperties) : Decidable (ValidTodo t) := by
  unfold ValidTodo
  infer_instance

/-- The Notion property bag built by `TodoProperties.to_notion_properties`,
embedded as a record of the six possible keys (`none` embeds an absent
key):  Task title runs, Description rich_text runs, the Due Date start
string, the Priority select name, the Tags multi_select names, the Status
status name. -/
structure NotionBag where
  task : Option (List RichText) := none
  description : Option (List RichText) := none
  due_date : Option Pstr := none
  priority : Option Pstr := none
  tags : Option (List Pstr) := none
  status : Option Pstr := none
  deriving DecidableEq, Repr

/-- `TodoProperties.to_notion_properties`: Task always present (truncated to
`MAX_TITLE_LENGTH`); every other field added only when truthy (so an empty
tag list is omitted). -/
def to_notion_properties (t : TodoProperties) : NotionBag :=
  { task := some [{ content := t.task.take 100 }],
    description := match t.description with
      | some d => if d = [] then none else some [{ content := d.take 2000 }]
      | none => none,
    due_date := t.due_date.map Dt.iso,
    priority := match t.priority with
      | some p => if p = [] then none else some p
      | none => none,
    tags := match t.tags with
      | some tg => if tg = [] then none else some tg
      | none => none,
    status := match t.status with
      | some s => if s = [] then none else some s
      | none => none }

/-- `TodoProperties.validate_task`. -/
def validateTask (v : Pstr) : Except PyErr Pstr :=
  if v = [] ∨ strip v = [] then .error .taskEmpty
  else if v.length > 100 then .error .taskTooLong
  else .ok (strip v)

/-- `TodoProperties.validate_description`. -/
def validateDescription (v : Option Pstr) : Except PyErr (Option Pstr) :=
  match v with
  | some d =>
    if strip d = [] then .ok none
    else if d.length > 2000 then .error .descriptionTooLong
    else .ok (some (strip d))
  | none => .ok none

/-- The pydantic pattern check on priority / status fields. -/
def validatePattern (allowed : List Pstr) (v : Option Pstr) :
    Except PyErr (Option Pstr) :=
  match v with
  | some s => if s ∈ allowed then .ok (some s) else .error .patternMismatch
  | none => .ok none

/-- The Task extraction of `from_notion_properties`: the first title run
when the title list is truthy, the empty string otherwise. -/
def bagTaskRaw (bag : NotionBag) : Pstr :=
  match bag.task with
  | some (r :: _) => r.content
  | _ => []

/-- The Description extraction of `from_notion_properties`. -/
def bagDescRaw (bag : NotionBag) : Option Pstr :=
  match bag.description with
  | some (r :: _) => some r.content
  | _ => none

/-- The Tags extraction of `from_notion_properties`: `None` when the
multi_select list is absent or empty (Python truthiness). -/
def bagTagsRaw (bag : NotionBag) : Option (List Pstr) :=
  match bag.tags with
  | some [] => none
  | some l => some l
  | none => none

/-- `TodoProperties.from_notion_properties`: read each key back with the
truthiness guards of the Python conditional expressions, then run the
pydantic constructor validators. -/
def from_notion_properties (bag : NotionBag) : Except PyErr TodoProperties := do
  let task ← validateTask (bagTaskRaw bag)
  let description ← validateDescription (bagDescRaw bag)
  let priority ← validatePattern [lit "high", lit "medium", lit "low"] bag.priority
  let status ← validatePattern
    [lit "not_started", lit "in_progress", lit "completed"] bag.status
  .ok { task := task, description := description,
        due_date := bag.due_date.map Dt.mk,
        priority := priority, tags := bagTagsRaw bag, status := status }

instance {ε α : Type} [DecidableEq ε] [DecidableEq α] : DecidableEq (Except ε α) :=
  fun a b =>
    match a, b with
    | .ok x, .ok y =>
      if h : x = y then .isTrue (by rw [h]) else .isFalse (by simp [h])
    | .error x, .error y =>
      if h : x = y then .isTrue (by rw [h]) else .isFalse (by simp [h])
    | .ok _, .error _ => .isFalse (by simp)
    | .error _, .ok _ => .isFalse (by simp)

/-! ## Concrete inputs used by witnesses and counterexamples -/

/-- 150 input blocks, each carrying a distinct non-empty id. -/
def c2Blocks : List InBlock :=
  (List.range 150).map (fun k => { id := some ('b' :: natDigits k) })

/-- Numbered item, code block, numbered item: the sequence on which the
claimed counter reset (at the code block) differs from the code. -/
def c3Blocks : List Block :=
  [numBlock (lit "a"),
   { btype := lit "code",
     data := { rich_text := some [{ content := lit "py" }],
               language := some (lit "py"), content := some (lit "z") } },
   numBlock (lit "b")]

/-- A parent to_do with 101 direct subtask children: child 0 and child 100
unchecked, children 1 to 99 checked. -/
def c7CxStore : Store :=
  (lit "p", { btype := lit "to_do" }) ::
  (List.range 101).map (fun k =>
    (lit "c" ++ natDigits k,
     { btype := lit "to_do", checked := decide (1 ≤ k ∧ k ≤ 99),
       is_subtask := true, parent := some (lit "p") }))

/-- A parent to_do with two unchecked subtask children. -/
def c7TwoStore : Store :=
  [(lit "p", { btype := lit "to_do" }),
   (lit "s1", { btype := lit "to_do", checked := false, is_subtask := true,
                parent := some (lit "p") }),
   (lit "s2", { btype := lit "to_do", checked := false, is_subtask := true,
                parent := some (lit "p") })]

/-- The store after setting the first of the two subtasks: the parent
stays unchecked because the second subtask is still unchecked. -/
def c7TwoStoreMid : Store :=
  [(lit "p", { btype := lit "to_do", checked := false }),
   (lit "s1", { btype := lit "to_do", checked := true, is_subtask := true,
                parent := some (lit "p") }),
   (lit "s2", { btype := lit "to_do", checked := false, is_subtask := true,
                parent := some (lit "p") })]

/-- A valid todo record whose tags list is present but empty. -/
def c9Todo : TodoProperties := { task := lit "t", tags := some [] }

/-- A valid todo record with every field populated. -/
def c9TodoFull : TodoProperties :=
  { task := lit "Do it",
    description := some (lit "desc"),
    due_date := some { iso := lit "2020-01-01T00:00:00" },
    priority := some (lit "high"),
    tags := some [lit "a", lit "b"],
    status := some (lit "completed") }

/-! ## Helper lemmas about the embedded string primitives -/

theorem optionBind_some {α β : Type} (a : α) (f : α → Option β) :
    ((some a : Option α) >>= f) = f a := rfl

theorem exceptBind_ok {ε α β : Type} (a : α) (f : α → Except ε β) :
    (Except.ok a >>= f) = f a := rfl

theorem exceptBind_err {ε α β : Type} (e : ε) (f : α → Except ε β) :
    ((Except.error e : Except ε α) >>= f) = .error e := rfl

theorem replicate_len (n : Nat) (c : Char) : (List.replicate n c).length = n :=
  List.length_replicate ..

theorem replicate_ne_nil_of_pos (n : Nat) (c : Char) (h : n ≠ 0) :
    List.replicate n c ≠ [] := by
  intro hcon
  have h2 := congrArg List.length hcon
  rw [List.length_replicate] at h2
  exact h h2

theorem dropWhile_ws_replicate_space (n : Nat) :
    (List.replicate n ' ').dropWhile pyIsSpace = [] := by
  induction n with
  | zero => rfl
  | succ n ih =>
    rw [List.replicate_succ, List.dropWhile_cons]
    simp only [pyIsSpace]
    simpa using ih

theorem strip_replicate_space (n : Nat) : strip (List.replicate n ' ') = [] := by
  unfold strip rstrip lstrip
  rw [List.reverse_replicate, dropWhile_ws_replicate_space]
  rfl

theorem dropWhile_ws_replicate_a (n : Nat) :
    (List.replicate n 'a').dropWhile pyIsSpace = List.replicate n 'a' := by
  cases n with
  | zero => rfl
  | succ n =>
    rw [List.replicate_succ, List.dropWhile_cons]
    simp [pyIsSpace]

theorem strip_replicate_a (n : Nat) :
    strip (List.replicate n 'a') = List.replicate n 'a' := by
  unfold strip rstrip lstrip
  rw [List.reverse_replicate, dropWhile_ws_replicate_a, List.reverse_replicate,
    dropWhile_ws_replicate_a]

/-! ## Lemmas about splitting, joining and normalization -/

theorem splitNL_ne_nil (s : Pstr) : splitNL s ≠ [] := by
  cases s with
  | nil => simp [splitNL]
  | cons c t =>
    unfold splitNL
    by_cases hc : c = '\n'
    · simp [hc]
    · rw [if_neg hc]
      cases splitNL t <;> simp

theorem splitNL_cons_nl (t : Pstr) : splitNL ('\n' :: t) = [] :: splitNL t := by
  conv_lhs => unfold splitNL
  rw [if_pos rfl]

theorem splitNL_cons_other (c : Char) (t : Pstr) (hc : c ≠ '\n') :
    splitNL (c :: t)
      = match splitNL t with
        | [] => [[c]]
        | l :: ls => (c :: l) :: ls := by
  conv_lhs => unfold splitNL
  rw [if_neg hc]

theorem splitNL_append_newline (x y : Pstr) :
    splitNL (x ++ '\n' :: y) = splitNL x ++ splitNL y := by
  induction x with
  | nil =>
    rw [List.nil_append, splitNL_cons_nl]
    rfl
  | cons c t ih =>
    rw [List.cons_append]
    by_cases hc : c = '\n'
    · subst hc
      rw [splitNL_cons_nl, splitNL_cons_nl, ih]
      rfl
    · rw [splitNL_cons_other _ _ hc, splitNL_cons_other _ _ hc, ih]
      cases h : splitNL t with
      | nil => exact absurd h (splitNL_ne_nil t)
      | cons l ls => rfl

theorem splitNL_no_newline (l : Pstr) (h : '\n' ∉ l) : splitNL l = [l] := by
  induction l with
  | nil => rfl
  | cons c t ih =>
    rw [splitNL_cons_other c t (by intro hc; exact h (by rw [hc]; simp))]
    rw [ih (fun hm => h (by simp [hm]))]

theorem splitNL_joinNL (ps : List Pstr) (h : ps ≠ []) :
    splitNL (joinNL ps) = ps.flatMap splitNL := by
  induction ps with
  | nil => exact absurd rfl h
  | cons p t ih =>
    cases t with
    | nil => simp [joinNL, List.flatMap_cons]
    | cons q u =>
      show splitNL (p ++ '\n' :: joinNL (q :: u)) = _
      rw [splitNL_append_newline, ih (by simp)]
      simp [List.flatMap_cons]

theorem normLines_append (a b : List Pstr) :
    normLines (a ++ b) = normLines a ++ normLines b := by
  unfold normLines
  rw [List.map_append, List.filter_append]

theorem normLines_cons (x : Pstr) (xs : List Pstr) :
    normLines (x :: xs)
      = if strip x = [] then normLines xs else strip x :: normLines xs := by
  unfold normLines
  rw [List.map_cons]
  by_cases hx : strip x = []
  · rw [if_pos hx, List.filter_cons_of_neg (by simp [hx])]
  · rw [if_neg hx, List.filter_cons_of_pos (by simp [hx])]

theorem normLines_flatMap (l : List Pstr) (f : Pstr → List Pstr) :
    normLines (l.flatMap f) = l.flatMap (fun p => normLines (f p)) := by
  induction l with
  | nil => rfl
  | cons p t ih =>
    rw [List.flatMap_cons, List.flatMap_cons, normLines_append, ih]

theorem strip_nil_eq : strip [] = [] := rfl

theorem normalizeStr_joinNL (ps : List Pstr) :
    normalizeStr (joinNL ps) = ps.flatMap (fun p => normLines (splitNL p)) := by
  cases ps with
  | nil => rfl
  | cons p t =>
    unfold normalizeStr
    rw [splitNL_joinNL _ (by simp), normLines_flatMap]

theorem rstrip_eq_self_iff_dropWhile (c : Pstr) :
    rstrip c = c ↔ List.dropWhile pyIsSpace c.reverse = c.reverse := by
  unfold rstrip
  constructor
  · intro h
    have := congrArg List.reverse h
    rwa [List.reverse_reverse] at this
  · intro h
    rw [h, List.reverse_reverse]

theorem rstrip_append_clean (x c : Pstr) (hc : rstrip c = c) (hne : c ≠ []) :
    rstrip (x ++ c) = x ++ c := by
  have hdw := (rstrip_eq_self_iff_dropWhile c).mp hc
  unfold rstrip
  rw [List.reverse_append, List.dropWhile_append]
  rw [if_neg (by rw [hdw]; simp [hne])]
  rw [hdw, ← List.reverse_append, List.reverse_reverse]

theorem lstrip_cons_nonws (a : Char) (t : Pstr) (h : pyIsSpace a = false) :
    lstrip (a :: t) = a :: t := by
  unfold lstrip
  rw [List.dropWhile_cons_of_neg (by rw [h]; simp)]

theorem strip_eq_of (s : Pstr) (h1 : rstrip s = s) (h2 : lstrip s = s) :
    strip s = s := by
  unfold strip
  rw [h1, h2]

theorem rstrip_nil_all_ws (l : Pstr) (h : rstrip l = []) :
    ∀ x ∈ l, pyIsSpace x = true := by
  have h2 : List.dropWhile pyIsSpace l.reverse = [] := by
    have h3 := congrArg List.reverse h
    unfold rstrip at h3
    simpa using h3
  intro x hx
  exact List.dropWhile_eq_nil_iff.mp h2 x (by simp [hx])

theorem strip_cons_ws (c : Char) (l : Pstr) (hc : pyIsSpace c = true) :
    strip (c :: l) = strip l := by
  by_cases hr : rstrip l = []
  · have hall := rstrip_nil_all_ws l hr
    have h2 : rstrip (c :: l) = [] := by
      unfold rstrip
      rw [List.dropWhile_eq_nil_iff.mpr ?_]
      · rfl
      · intro x hx
        rw [List.mem_reverse] at hx
        rcases List.mem_cons.mp hx with h3 | h3
        · rw [h3]; exact hc
        · exact hall x h3
    unfold strip
    rw [h2, hr]
  · have hdw : List.dropWhile pyIsSpace l.reverse ≠ [] := by
      intro hcon
      apply hr
      unfold rstrip
      rw [hcon]
      rfl
    have h2 : rstrip (c :: l) = c :: rstrip l := by
      unfold rstrip
      rw [show (c :: l).reverse = l.reverse ++ [c] by simp]
      rw [List.dropWhile_append, if_neg (by simp [hdw])]
      rw [List.reverse_append]
      rfl
    unfold strip
    rw [h2]
    unfold lstrip
    rw [List.dropWhile_cons_of_pos (by rw [hc])]

theorem strip_append_ws (c : Char) (l : Pstr) (hc : pyIsSpace c = true) :
    strip (l ++ [c]) = strip l := by
  have h2 : rstrip (l ++ [c]) = rstrip l := by
    unfold rstrip
    rw [List.reverse_append]
    rw [show [c].reverse ++ l.reverse = c :: l.reverse from rfl]
    rw [List.dropWhile_cons_of_pos (by rw [hc])]
  unfold strip
  rw [h2]

theorem normalizeStr_cons_ws (c : Char) (s : Pstr) (hc : pyIsSpace c = true) :
    normalizeStr (c :: s) = normalizeStr s := by
  by_cases hnl : c = '\n'
  · unfold normalizeStr
    rw [hnl, splitNL_cons_nl, normLines_cons, if_pos strip_nil_eq]
  · unfold normalizeStr
    rw [splitNL_cons_other c s hnl]
    cases h : splitNL s with
    | nil => exact absurd h (splitNL_ne_nil s)
    | cons l ls =>
      show normLines ((c :: l) :: ls) = normLines (l :: ls)
      rw [normLines_cons, normLines_cons, strip_cons_ws c l hc]

/-- Append one character to the last line of a non-empty line list. -/
def appendLast : List Pstr → Char → List Pstr
  | [], c => [[c]]
  | [l], c => [l ++ [c]]
  | l :: l2 :: t, c => l :: appendLast (l2 :: t) c

theorem splitNL_append_char (y : Pstr) (c : Char) (hc : c ≠ '\n') :
    splitNL (y ++ [c]) = appendLast (splitNL y) c := by
  induction y with
  | nil =>
    rw [List.nil_append, splitNL_cons_other c [] hc]
    rfl
  | cons d t ih =>
    rw [List.cons_append]
    by_cases hd : d = '\n'
    · subst hd
      rw [splitNL_cons_nl, splitNL_cons_nl, ih]
      cases h : splitNL t with
      | nil => exact absurd h (splitNL_ne_nil t)
      | cons l ls => rfl
    · rw [splitNL_cons_other _ _ hd, splitNL_cons_other _ _ hd, ih]
      cases h : splitNL t with
      | nil => exact absurd h (splitNL_ne_nil t)
      | cons l ls =>
        cases ls with
        | nil => rfl
        | cons l2 t2 => rfl

theorem normLines_appendLast_ws (ls : List Pstr) (c : Char)
    (hc : pyIsSpace c = true) :
    normLines (appendLast ls c) = normLines ls := by
  induction ls with
  | nil =>
    show normLines [[c]] = normLines []
    rw [normLines_cons]
    rw [if_pos (by rw [show ([c] : Pstr) = [] ++ [c] from rfl, strip_append_ws c [] hc]; rfl)]
  | cons l t ih =>
    cases t with
    | nil =>
      show normLines [l ++ [c]] = normLines [l]
      rw [normLines_cons, normLines_cons, strip_append_ws c l hc]
    | cons l2 t2 =>
      show normLines (l :: appendLast (l2 :: t2) c) = _
      rw [normLines_cons, normLines_cons, ih]

theorem normalizeStr_append_ws (y : Pstr) (c : Char) (hc : pyIsSpace c = true) :
    normalizeStr (y ++ [c]) = normalizeStr y := by
  by_cases hnl : c = '\n'
  · unfold normalizeStr
    rw [hnl, show y ++ ['\n'] = y ++ '\n' :: [] from rfl, splitNL_append_newline]
    rw [normLines_append]
    show _ ++ normLines [[]] = _
    rw [normLines_cons, if_pos strip_nil_eq]
    rw [show normLines ([] : List Pstr) = [] from rfl, List.append_nil]
  · unfold normalizeStr
    rw [splitNL_append_char y c hnl, normLines_appendLast_ws _ _ hc]

theorem normalizeStr_prepend_ws_list (w : Pstr) (s : Pstr)
    (h : ∀ x ∈ w, pyIsSpace x = true) :
    normalizeStr (w ++ s) = normalizeStr s := by
  induction w with
  | nil => rfl
  | cons c t ih =>
    rw [List.cons_append, normalizeStr_cons_ws c _ (h c (by simp))]
    exact ih (fun x hx => h x (by simp [hx]))

theorem normalizeStr_append_ws_list (y : Pstr) (w : Pstr)
    (h : ∀ x ∈ w, pyIsSpace x = true) :
    normalizeStr (y ++ w) = normalizeStr y := by
  induction w using List.reverseRecOn with
  | nil => rw [List.append_nil]
  | append_singleton t c ih =>
    rw [← List.append_assoc]
    rw [normalizeStr_append_ws (y ++ t) c (h c (by simp))]
    exact ih (fun x hx => h x (by simp [hx]))

theorem normalizeStr_lstrip (s : Pstr) :
    normalizeStr (lstrip s) = normalizeStr s := by
  have hdecomp : s.takeWhile pyIsSpace ++ lstrip s = s :=
    List.takeWhile_append_dropWhile pyIsSpace s
  conv_rhs => rw [← hdecomp]
  rw [normalizeStr_prepend_ws_list _ _ (fun x hx => List.mem_takeWhile_imp hx)]

theorem normalizeStr_rstrip (s : Pstr) :
    normalizeStr (rstrip s) = normalizeStr s := by
  have hdecomp : rstrip s ++ (s.reverse.takeWhile pyIsSpace).reverse = s := by
    unfold rstrip
    rw [← List.reverse_append, List.takeWhile_append_dropWhile, List.reverse_reverse]
  conv_rhs => rw [← hdecomp]
  rw [normalizeStr_append_ws_list _ _ ?_]
  intro x hx
  rw [List.mem_reverse] at hx
  exact List.mem_takeWhile_imp hx

theorem normalizeStr_strip (s : Pstr) :
    normalizeStr (strip s) = normalizeStr s := by
  unfold strip
  rw [normalizeStr_lstrip, normalizeStr_rstrip]

/-! ## Single-step characterizations of the parser loop -/

theorem parseGo_cons_blank (l : Pstr) (rest : List Pstr) (i : Nat)
    (cc : List Pstr) (lang : Pstr) (h : rstrip l = []) :
    parseGo (l :: rest) i false cc lang = parseGo rest (i + 1) false cc lang := by
  simp only [parseGo, h]
  rfl

theorem parseGo_cons_open (l : Pstr) (rest : List Pstr) (i : Nat)
    (cc : List Pstr) (lang : Pstr)
    (h : startsWith (rstrip l) (lit "```") = true) :
    parseGo (l :: rest) i false cc lang
      = parseGo rest (i + 1) true []
          (if (rstrip l).length > 3 then (rstrip l).drop 3 else []) := by
  have hna : ¬(rstrip l = [] ∧ ¬(false : Bool)) := by
    intro hcon
    rw [hcon.1] at h
    simp [startsWith, List.isPrefixOf, lit] at h
  simp only [parseGo, if_neg hna, h]
  rfl

theorem parseGo_cons_close (l : Pstr) (rest : List Pstr) (i : Nat)
    (cc : List Pstr) (lang : Pstr)
    (h : startsWith (rstrip l) (lit "```") = true) :
    parseGo (l :: rest) i true cc lang
      = (do
          let b ← closeCodeBlock cc lang
          let bs ← parseGo rest (i + 1) false cc []
          .ok (b :: bs)) := by
  simp only [parseGo, h, not_true, and_false, if_false, if_true, Bool.not_true,
    ite_false, ite_true]

theorem parseGo_cons_inCode (l : Pstr) (rest : List Pstr) (i : Nat)
    (cc : List Pstr) (lang : Pstr)
    (h : startsWith (rstrip l) (lit "```") = false) :
    parseGo (l :: rest) i true cc lang
      = parseGo rest (i + 1) true (cc ++ [rstrip l]) lang := by
  simp only [parseGo, h, not_true, and_false, if_false, if_true, Bool.not_true,
    ite_false, ite_true, Bool.false_eq_true, not_false_eq_true]

theorem parseGo_cons_line (l : Pstr) (rest : List Pstr) (i : Nat)
    (cc : List Pstr) (lang : Pstr)
    (hb : rstrip l ≠ [])
    (h : startsWith (rstrip l) (lit "```") = false) :
    parseGo (l :: rest) i false cc lang
      = (do
          let b ← wrapLineErr i (parseLineBlock (rstrip l))
          let bs ← parseGo rest (i + 1) false cc lang
          .ok (b :: bs)) := by
  simp only [parseGo, h, if_false, ite_false, Bool.false_eq_true,
    not_false_eq_true, and_true]
  rw [if_neg hb]

/-- Code-block mode consumes every line up to the closing fence, appending
the right-stripped line to the accumulator and bypassing every other rule;
at the fence the accumulated lines become the code block. -/
theorem parseGo_code_mode (ls : List Pstr) : ∀ (rest : List Pstr) (i : Nat)
    (acc : List Pstr) (lang : Pstr),
    (∀ l ∈ ls, startsWith (rstrip l) (lit "```") = false) →
    parseGo (ls ++ lit "```" :: rest) i true acc lang
      = (do
          let b ← closeCodeBlock (acc ++ ls.map rstrip) lang
          let bs ← parseGo rest (i + ls.length + 1) false (acc ++ ls.map rstrip) []
          .ok (b :: bs)) := by
  induction ls with
  | nil =>
    intro rest i acc lang _
    rw [List.nil_append]
    rw [parseGo_cons_close _ _ _ _ _ (by decide)]
    simp only [List.map_nil, List.append_nil, List.length_nil, Nat.add_zero]
  | cons l ls ih =>
    intro rest i acc lang h
    rw [List.cons_append]
    rw [parseGo_cons_inCode _ _ _ _ _ (h l (by simp))]
    rw [ih rest (i + 1) (acc ++ [rstrip l]) lang (fun x hx => h x (by simp [hx]))]
    rw [List.append_assoc]
    simp only [List.singleton_append, List.map_cons, List.length_cons]
    have harith : i + 1 + ls.length + 1 = i + (ls.length + 1) + 1 := by omega
    rw [harith]

/-- Closing a fence with no captured language builds the code block directly:
no rich_text run, no language, and a `content` key exactly when the joined
accumulated text is non-empty. -/
theorem closeCodeBlock_no_lang (cc : List Pstr) :
    closeCodeBlock cc []
      = .ok { btype := lit "code",
              data := { content := if joinNL cc = [] then none
                        else some (joinNL cc) } } := by
  unfold closeCodeBlock create_block convertBType checkAnnKeys
  by_cases hj : joinNL cc = [] <;>
    simp [hj, BTArg.val, truthyAnnots, exceptBind_ok]

/-! ## C10: blocks_to_markdown is not total on valid parser output -/

/-- C10: parsing the markdown made of an opening fence immediately followed
by a closing fence succeeds and yields one code block carrying neither a
`content` field nor a `rich_text` run, and `blocks_to_markdown` on that
output hits an unhandled lookup error (embedded as `none`) instead of
returning a markdown string. -/
theorem c10_empty_code_block_not_total :
    parse_markdown_to_blocks (lit "```\n```")
        = .ok [{ btype := lit "code", data := {} }]
    ∧ blocks_to_markdown [{ btype := lit "code", data := {} }] = none := by
  decide

/-! ## C5: create_rich_text validation boundary -/

/-- C5 counterexample: the whitespace-only string of length 2001 fails with
the content-empty error, not the length error the claim asserts for every
string of length 2001 (the emptiness check runs before the length check). -/
theorem c5_blank_length_2001_cx :
    (List.replicate 2001 ' ').length = 2001
    ∧ create_rich_text (some (List.replicate 2001 ' ')) none none
        = .error .contentEmpty
    ∧ PyErr.contentEmpty ≠ PyErr.contentTooLong := by
  refine ⟨replicate_len .., ?_, by decide⟩
  have hne : List.replicate 2001 ' ' ≠ ([] : Pstr) :=
    replicate_ne_nil_of_pos 2001 ' ' (by decide)
  have key : ∀ r : Pstr, r ≠ [] → strip r = [] →
      create_rich_text (some r) none none = .error .contentEmpty := by
    intro r h1 h2
    unfold create_rich_text checkAnnotsWithColor validateContent
    simp [h1, h2, truthyAnnots, exceptBind_ok, exceptBind_err]
  exact key _ hne (strip_replicate_space 2001)

/-- C5 amended: the empty string, a whitespace-only string and `None` each
fail with the content-empty error; every NON-BLANK string of length 2001
fails with the length error (a blank one fails with the content-empty error
instead); every non-blank string of length 2000 succeeds. -/
theorem c5_validation_boundary :
    create_rich_text none none none = .error .contentEmpty
    ∧ create_rich_text (some []) none none = .error .contentEmpty
    ∧ create_rich_text (some (lit "   ")) none none = .error .contentEmpty
    ∧ (∀ s : Pstr, s.length = 2001 → strip s ≠ [] →
        create_rich_text (some s) none none = .error .contentTooLong)
    ∧ (∀ s : Pstr, s.length = 2000 → strip s ≠ [] →
        create_rich_text (some s) none none = .ok [{ content := strip s }]) := by
  refine ⟨by decide, by decide, by decide, ?_, ?_⟩
  · intro s hlen hns
    have hne : s ≠ [] := by intro h; rw [h] at hlen; simp at hlen
    unfold create_rich_text checkAnnotsWithColor validateContent
    simp [hne, hns, truthyAnnots, hlen, exceptBind_ok, exceptBind_err]
  · intro s hlen hns
    have hne : s ≠ [] := by intro h; rw [h] at hlen; simp at hlen
    unfold create_rich_text checkAnnotsWithColor validateContent
    simp [hne, hns, truthyAnnots, hlen, truthyStr, exceptBind_ok]

/-- Witness for C5 at concrete inputs: a non-blank string of length 2001
gets the length error, one of length 2000 succeeds. -/
theorem c5_validation_boundary_witness :
    ((List.replicate 2001 'a').length = 2001
      ∧ strip (List.replicate 2001 'a') ≠ []
      ∧ create_rich_text (some (List.replicate 2001 'a')) none none
          = .error .contentTooLong)
    ∧ ((List.replicate 2000 'a').length = 2000
      ∧ strip (List.replicate 2000 'a') ≠ []
      ∧ create_rich_text (some (List.replicate 2000 'a')) none none
          = .ok [{ content := strip (List.replicate 2000 'a') }]) := by
  have h1 : strip (List.replicate 2001 'a') ≠ [] := by
    rw [strip_replicate_a]
    exact replicate_ne_nil_of_pos 2001 'a' (by decide)
  have h2 : strip (List.replicate 2000 'a') ≠ [] := by
    rw [strip_replicate_a]
    exact replicate_ne_nil_of_pos 2000 'a' (by decide)
  exact ⟨⟨replicate_len .., h1, c5_validation_boundary.2.2.2.1 _ (replicate_len ..) h1⟩,
         ⟨replicate_len .., h2, c5_validation_boundary.2.2.2.2 _ (replicate_len ..) h2⟩⟩

/-! ## C6: unknown block kinds -/

/-- C6 counterexample: the client-side builder `BlocksAPI.create_block`
performs no kind validation; called with the unknown kind string "fancy" it
does not fail but returns a block tagged with the unknown kind. -/
theorem c6_client_builder_no_validation_cx :
    (blocksApiCreateBlock (lit "fancy") (some (lit "x")) none {} none).btype
        = lit "fancy"
    ∧ lit "fancy" ∉ knownBlockTypes := by
  decide

/-- C6 amended: the formatting-level builder `create_block` fails with the
invalid-block-type `ValueError` on every kind string outside the twelve
`BlockType` values, for every non-empty content (empty content triggers the
content-empty error first); the client-side `BlocksAPI.create_block`
performs no such validation. -/
theorem c6_formatting_builder_rejects_unknown :
    ∀ (t : Pstr) (content : Pstr) (annots : Option Annots) (extra : ExtraProps),
      t ∉ knownBlockTypes → content ≠ [] →
      create_block content (.s t) annots extra = .error (.invalidBlockType t) := by
  intro t content annots extra hunk hc
  unfold create_block convertBType
  simp [hc, BTArg.val, hunk, exceptBind_err]

/-- Witness for C6 at the concrete unknown kind "fancy". -/
theorem c6_formatting_builder_rejects_unknown_witness :
    lit "fancy" ∉ knownBlockTypes
    ∧ lit "x" ≠ ([] : Pstr)
    ∧ create_block (lit "x") (.s (lit "fancy")) none {}
        = .error (.invalidBlockType (lit "fancy")) :=
  ⟨by decide, by decide,
   c6_formatting_builder_rejects_unknown (lit "fancy") (lit "x") none {}
     (by decide) (by decide)⟩

/-! ## C8: update_page argument validation and body construction -/

/-- C8 counterexample: passing the empty properties dictionary (supplied,
but falsy) with no archived flag does not fail, yet the body sent contains
neither key, so the body does not consist of exactly the supplied fields. -/
theorem c8_empty_properties_cx :
    update_page (some []) none = .ok { properties := none, archived := none }
    ∧ some ([] : List (Pstr × Pstr)) ≠ none := by
  exact ⟨rfl, by simp⟩

/-- C8 amended: `update_page` fails with the `ValueError` (before any
request) exactly when both arguments are `None`; otherwise the body
contains `archived` exactly when supplied, and `properties` exactly when
supplied AND non-empty (Python truthiness drops an empty dictionary). -/
theorem c8_update_page_body :
    ∀ (p : Option (List (Pstr × Pstr))) (a : Option Bool),
      (update_page p a = .error .mustProvideArgs ↔ (p = none ∧ a = none))
      ∧ (∀ body, update_page p a = .ok body →
          body.archived = a
          ∧ body.properties = p.bind (fun d => if d = [] then none else some d)) := by
  intro p a
  unfold update_page
  by_cases h : p = none ∧ a = none
  · simp only [if_pos h]
    refine ⟨by simp [h], ?_⟩
    intro body hb
    simp at hb
  · simp only [if_neg h]
    refine ⟨by simp [h], ?_⟩
    intro body hb
    have hb2 := hb
    simp only [Except.ok.injEq] at hb2
    rw [← hb2]
    cases p <;> simp

/-- Witness for C8 at concrete supplied arguments. -/
theorem c8_update_page_body_witness :
    ({ properties := some [(lit "k", lit "v")], archived := some true } : UpdateBody).archived
        = some true
    ∧ ({ properties := some [(lit "k", lit "v")], archived := some true } : UpdateBody).properties
        = (some [(lit "k", lit "v")]).bind
            (fun d => if d = [] then none else some d) :=
  (c8_update_page_body (some [(lit "k", lit "v")]) (some true)).2
    { properties := some [(lit "k", lit "v")], archived := some true } (by decide)

/-! ## C2: append_children batching and anchoring -/

/-- C2: appending 150 blocks (each carrying a non-empty id) with
batch_size 100 issues exactly two requests; the second request's `after`
equals the id of the 100th input block — `blocks.get? 99` — regardless of
what ids the remote returned for the first request; and any call with
batch_size above 100 fails with the `ValueError` before any request. -/
theorem c2_append_children_batching :
    (∀ (blocks : List InBlock) (after : Option Pstr) (resp : Nat → Option Pstr),
      blocks.length = 150 →
      (∀ b ∈ blocks, b.id ≠ none ∧ b.id ≠ some []) →
      append_children blocks after 100 resp
        = .ok [{ children := blocks.take 100, after := truthyStr after },
               { children := blocks.drop 100,
                 after := (blocks.get? 99).bind InBlock.id }])
    ∧ (∀ (blocks : List InBlock) (after : Option Pstr) (bs : Nat)
        (resp : Nat → Option Pstr),
        bs > 100 → append_children blocks after bs resp = .error .batchSizeTooLarge) := by
  constructor
  · intro blocks after resp hlen hids
    obtain ⟨b99, hb99⟩ : ∃ b, blocks.get? 99 = some b := by
      cases h : blocks.get? 99 with
      | none =>
        have := List.get?_eq_none.mp h
        rw [hlen] at this
        omega
      | some b => exact ⟨b, rfl⟩
    obtain ⟨i99, hi99, hi99ne⟩ : ∃ i, b99.id = some i ∧ i ≠ [] := by
      have hmem := List.get?_mem hb99
      obtain ⟨hnn, hne⟩ := hids b99 hmem
      cases h : b99.id with
      | none => exact absurd h hnn
      | some i =>
        refine ⟨i, rfl, ?_⟩
        intro hnil
        rw [hnil] at h
        exact hne h
    have hb99g : blocks[99]? = some b99 := by
      rw [← List.get?_eq_getElem?]
      exact hb99
    have htr : truthyStr (blocks[99]?.bind (fun a => a.id))
        = blocks[99]?.bind (fun a => a.id) := by
      rw [hb99g]
      rw [show (some b99).bind (fun a => a.id) = b99.id from rfl, hi99]
      simp [truthyStr, hi99ne]
    unfold append_children
    rw [if_neg (by omega)]
    rw [if_pos (by rw [hlen]; omega)]
    simp only [hlen]
    norm_num
    rw [show List.range 2 = [0, 1] by decide]
    simp only [List.map_cons, List.map_nil, List.foldl_cons, List.foldl_nil]
    norm_num
    refine ⟨by omega, htr⟩
  · intro blocks after bs resp hbs
    unfold append_children
    rw [if_pos hbs]

set_option maxRecDepth 20000 in
/-- Witness for C2 at a concrete list of 150 blocks with ids. -/
theorem c2_append_children_batching_witness :
    c2Blocks.length = 150
    ∧ (∀ b ∈ c2Blocks, b.id ≠ none ∧ b.id ≠ some [])
    ∧ append_children c2Blocks (some (lit "anchor")) 100 (fun _ => some (lit "respid"))
        = .ok [{ children := c2Blocks.take 100, after := truthyStr (some (lit "anchor")) },
               { children := c2Blocks.drop 100,
                 after := (c2Blocks.get? 99).bind InBlock.id }] :=
  ⟨by decide, by decide,
   c2_append_children_batching.1 c2Blocks (some (lit "anchor"))
     (fun _ => some (lit "respid")) (by decide) (by decide)⟩

/-! ## C9: TodoProperties round trip -/

/-- C9 counterexample: for the valid record whose tags list is present but
empty, `to_notion_properties` omits the Tags field (Python truthiness), so
`from_notion_properties` maps it back to an absent tags field: the round
trip is not the identity, and a present (empty) input is omitted from the
bag. -/
theorem c9_empty_tags_cx :
    ValidTodo c9Todo
    ∧ from_notion_properties (to_notion_properties c9Todo)
        = .ok { task := lit "t", tags := none }
    ∧ from_notion_properties (to_notion_properties c9Todo) ≠ .ok c9Todo := by
  refine ⟨by decide, by decide, by decide⟩

/-- C9 amended: for every valid `TodoProperties` record whose tags field is
not the present-but-empty list, converting to the Notion property format
and back is the identity; a field is omitted from the bag exactly when its
input is absent, except that a present empty tags list is also omitted
(and hence comes back absent). -/
theorem c9_todo_round_trip :
    ∀ t : TodoProperties, ValidTodo t → t.tags ≠ some [] →
      from_notion_properties (to_notion_properties t) = .ok t
      ∧ ((to_notion_properties t).description = none ↔ t.description = none)
      ∧ ((to_notion_properties t).due_date = none ↔ t.due_date = none)
      ∧ ((to_notion_properties t).priority = none ↔ t.priority = none)
      ∧ ((to_notion_properties t).status = none ↔ t.status = none)
      ∧ ((to_notion_properties t).tags = none ↔ (t.tags = none ∨ t.tags = some [])) := by
  intro t hval htagsne
  obtain ⟨⟨ht1, ht2, ht3⟩, hdesc, hpri, hstat⟩ := hval
  simp only [List.mem_cons, List.not_mem_nil, or_false] at hpri hstat
  have htask : validateTask (bagTaskRaw (to_notion_properties t)) = .ok t.task := by
    have hraw : bagTaskRaw (to_notion_properties t) = t.task.take 100 := rfl
    rw [hraw, List.take_of_length_le ht3]
    unfold validateTask
    rw [ht2]
    simp [ht1, show ¬t.task.length > 100 by omega]
  have hdo : validateDescription (bagDescRaw (to_notion_properties t))
      = .ok t.description := by
    have hraw : bagDescRaw (to_notion_properties t)
        = match t.description with
          | some d => if d = [] then none else some (d.take 2000)
          | none => none := by
      unfold bagDescRaw to_notion_properties
      cases hd : t.description with
      | none => rfl
      | some d =>
        simp only
        by_cases hdn : d = []
        · rw [if_pos hdn, if_pos hdn]
        · rw [if_neg hdn, if_neg hdn]
    rw [hraw]
    cases hd : t.description with
    | none => rfl
    | some d =>
      rw [hd] at hdesc
      obtain ⟨hd1, hd2, hd3⟩ := hdesc
      simp only [if_neg hd1]
      rw [List.take_of_length_le hd3]
      unfold validateDescription
      simp [hd2, hd1, show ¬d.length > 2000 by omega]
  have hprio : validatePattern [lit "high", lit "medium", lit "low"]
      (to_notion_properties t).priority = .ok t.priority := by
    rcases hpri with h | h | h | h <;>
      simp [to_notion_properties, validatePattern, h, lit]
  have hstato : validatePattern [lit "not_started", lit "in_progress", lit "completed"]
      (to_notion_properties t).status = .ok t.status := by
    rcases hstat with h | h | h | h <;>
      simp [to_notion_properties, validatePattern, h, lit]
  have htg : bagTagsRaw (to_notion_properties t) = t.tags := by
    unfold bagTagsRaw to_notion_properties
    cases htg0 : t.tags with
    | none => rfl
    | some tg =>
      cases tg with
      | nil => rw [htg0] at htagsne; exact absurd rfl htagsne
      | cons a tl => rfl
  have hddm : (to_notion_properties t).due_date.map Dt.mk = t.due_date := by
    unfold to_notion_properties
    cases hdd : t.due_date with
    | none => rfl
    | some d => rfl
  refine ⟨?_, ?_, ?_, ?_, ?_, ?_⟩
  · unfold from_notion_properties
    rw [htask, exceptBind_ok, hdo, exceptBind_ok, hprio, exceptBind_ok,
      hstato, exceptBind_ok, htg, hddm]
  · unfold to_notion_properties
    cases hd : t.description with
    | none => simp
    | some d =>
      rw [hd] at hdesc
      obtain ⟨hd1, _, _⟩ := hdesc
      simp [hd1]
  · unfold to_notion_properties
    cases t.due_date <;> simp
  · rcases hpri with h | h | h | h <;> simp [to_notion_properties, h, lit]
  · rcases hstat with h | h | h | h <;> simp [to_notion_properties, h, lit]
  · unfold to_notion_properties
    cases t.tags with
    | none => simp
    | some tg =>
      cases tg with
      | nil => simp
      | cons a tl => simp

/-- Witness for C9 at a fully populated concrete record. -/
theorem c9_todo_round_trip_witness :
    ValidTodo c9TodoFull
    ∧ c9TodoFull.tags ≠ some []
    ∧ from_notion_properties (to_notion_properties c9TodoFull) = .ok c9TodoFull :=
  ⟨by decide, by decide,
   (c9_todo_round_trip c9TodoFull (by decide) (by decide)).1⟩

/-! ## C3: the numbered-list counter in blocks_to_markdown -/

theorem runCounter_append_reset (pre : List Block) (b : Block)
    (h : resetsCounter b.btype = true) : runCounter (pre ++ [b]) = 0 := by
  unfold runCounter
  have hrev : (pre ++ [b]).reverse = b :: pre.reverse := by simp
  have hp : ¬(fun x : Block => !resetsCounter x.btype) b = true := by
    show ¬(!resetsCounter b.btype) = true
    rw [h]
    decide
  rw [hrev,
    List.takeWhile_cons_of_neg (p := fun x : Block => !resetsCounter x.btype) hp,
    List.countP_nil]

theorem runCounter_append_numbered (pre : List Block) (b : Block)
    (h : b.btype = lit "numbered_list_item") :
    runCounter (pre ++ [b]) = runCounter pre + 1 := by
  unfold runCounter
  have hrev : (pre ++ [b]).reverse = b :: pre.reverse := by simp
  have hp : (fun x : Block => !resetsCounter x.btype) b = true := by
    show (!resetsCounter b.btype) = true
    rw [h]
    decide
  have hq : (fun x : Block => decide (x.btype = lit "numbered_list_item")) b = true := by
    show decide (b.btype = lit "numbered_list_item") = true
    rw [h]
    decide
  rw [hrev,
    List.takeWhile_cons_of_pos (p := fun x : Block => !resetsCounter x.btype) hp,
    List.countP_cons_of_pos
      (fun x : Block => decide (x.btype = lit "numbered_list_item")) _ hq]

theorem runCounter_append_other (pre : List Block) (b : Block)
    (hr : resetsCounter b.btype = false)
    (hn : ¬b.btype = lit "numbered_list_item") :
    runCounter (pre ++ [b]) = runCounter pre := by
  unfold runCounter
  have hrev : (pre ++ [b]).reverse = b :: pre.reverse := by simp
  have hp : (fun x : Block => !resetsCounter x.btype) b = true := by
    show (!resetsCounter b.btype) = true
    rw [hr]
    decide
  have hq : ¬(fun x : Block => decide (x.btype = lit "numbered_list_item")) b = true := by
    show ¬decide (b.btype = lit "numbered_list_item") = true
    simp [hn]
  rw [hrev,
    List.takeWhile_cons_of_pos (p := fun x : Block => !resetsCounter x.btype) hp,
    List.countP_cons_of_neg
      (fun x : Block => decide (x.btype = lit "numbered_list_item")) _ hq]

theorem btmGo_eq_spec (bs : List Block) : ∀ (multi : Bool) (pre : List Block),
    btmGo bs multi (runCounter pre) = btmSpecGo bs multi pre := by
  induction bs with
  | nil => intro multi pre; rfl
  | cons b rest ih =>
    intro multi pre
    unfold btmGo btmSpecGo
    by_cases hcode : b.btype = lit "code"
    · rw [if_pos hcode, if_pos hcode]
      have hre : runCounter (pre ++ [b]) = runCounter pre :=
        runCounter_append_other pre b (by rw [hcode]; rfl) (by rw [hcode]; decide)
      rw [← ih multi (pre ++ [b]), hre]
    · rw [if_neg hcode, if_neg hcode]
      cases hfc : firstRichTextContent b.data with
      | none => rfl
      | some content =>
        simp only [optionBind_some]
        by_cases h1 : b.btype = lit "heading_1"
        · have hre : runCounter (pre ++ [b]) = 0 :=
            runCounter_append_reset pre b (by rw [h1]; rfl)
          rw [if_pos h1, if_pos h1, ← ih multi (pre ++ [b]), hre]
        · by_cases h2 : b.btype = lit "heading_2"
          · have hre : runCounter (pre ++ [b]) = 0 :=
              runCounter_append_reset pre b (by rw [h2]; rfl)
            rw [if_neg h1, if_pos h2, if_neg h1, if_pos h2,
              ← ih multi (pre ++ [b]), hre]
          · by_cases h3 : b.btype = lit "heading_3"
            · have hre : runCounter (pre ++ [b]) = 0 :=
                runCounter_append_reset pre b (by rw [h3]; rfl)
              rw [if_neg h1, if_neg h2, if_pos h3, if_neg h1, if_neg h2, if_pos h3,
                ← ih multi (pre ++ [b]), hre]
            · by_cases h4 : b.btype = lit "bulleted_list_item"
              · have hre : runCounter (pre ++ [b]) = 0 :=
                  runCounter_append_reset pre b (by rw [h4]; rfl)
                rw [if_neg h1, if_neg h2, if_neg h3, if_pos h4,
                  if_neg h1, if_neg h2, if_neg h3, if_pos h4,
                  ← ih multi (pre ++ [b]), hre]
              · by_cases h5 : b.btype = lit "numbered_list_item"
                · have hre : runCounter (pre ++ [b]) = runCounter pre + 1 :=
                    runCounter_append_numbered pre b h5
                  rw [if_neg h1, if_neg h2, if_neg h3, if_neg h4, if_pos h5,
                    if_neg h1, if_neg h2, if_neg h3, if_neg h4, if_pos h5,
                    ← ih multi (pre ++ [b]), hre]
                · by_cases h6 : b.btype = lit "to_do"
                  · have hre : runCounter (pre ++ [b]) = 0 :=
                      runCounter_append_reset pre b (by rw [h6]; rfl)
                    rw [if_neg h1, if_neg h2, if_neg h3, if_neg h4, if_neg h5, if_pos h6,
                      if_neg h1, if_neg h2, if_neg h3, if_neg h4, if_neg h5, if_pos h6,
                      ← ih multi (pre ++ [b]), hre]
                  · by_cases h7 : b.btype = lit "quote"
                    · have hre : runCounter (pre ++ [b]) = 0 :=
                        runCounter_append_reset pre b (by rw [h7]; rfl)
                      rw [if_neg h1, if_neg h2, if_neg h3, if_neg h4, if_neg h5,
                        if_neg h6, if_pos h7,
                        if_neg h1, if_neg h2, if_neg h3, if_neg h4, if_neg h5,
                        if_neg h6, if_pos h7,
                        ← ih multi (pre ++ [b]), hre]
                    · by_cases h8 : b.btype = lit "paragraph"
                      · have hre : runCounter (pre ++ [b]) = 0 :=
                          runCounter_append_reset pre b (by rw [h8]; rfl)
                        rw [if_neg h1, if_neg h2, if_neg h3, if_neg h4, if_neg h5,
                          if_neg h6, if_neg h7, if_pos h8,
                          if_neg h1, if_neg h2, if_neg h3, if_neg h4, if_neg h5,
                          if_neg h6, if_neg h7, if_pos h8,
                          ← ih multi (pre ++ [b]), hre]
                      · have hre : runCounter (pre ++ [b]) = runCounter pre := by
                          refine runCounter_append_other pre b ?_ h5
                          unfold resetsCounter
                          simp [h1, h2, h3, h4, h6, h7, h8]
                        rw [if_neg h1, if_neg h2, if_neg h3, if_neg h4, if_neg h5,
                          if_neg h6, if_neg h7, if_neg h8,
                          if_neg h1, if_neg h2, if_neg h3, if_neg h4, if_neg h5,
                          if_neg h6, if_neg h7, if_neg h8,
                          ← ih multi (pre ++ [b]), hre]

/-- C3 amended: `blocks_to_markdown` equals the reference serializer in
which each numbered item's numeral is its position within its maximal run,
where a run is broken by a heading, bulleted, to_do, quote or paragraph
block, but NOT by a code block (nor by a block of an unhandled kind). -/
theorem c3_numbered_counter_position :
    ∀ blocks : List Block, blocks_to_markdown blocks = blocks_to_markdown_spec blocks := by
  intro blocks
  unfold blocks_to_markdown blocks_to_markdown_spec
  rw [show (0 : Nat) = runCounter [] from rfl, btmGo_eq_spec]

/-- C3 counterexample: on numbered item, code block, numbered item the code
emits numerals 1 and 2 (the counter survives the code block), while the
claimed semantics (reset at every non-numbered block, including code)
would emit 1 and 1. -/
theorem c3_code_block_reset_cx :
    blocks_to_markdown c3Blocks
        = some (lit "1. a\n\n```py\nz\n```\n\n2. b")
    ∧ blocks_to_markdown_claim c3Blocks
        = some (lit "1. a\n\n```py\nz\n```\n\n1. b")
    ∧ blocks_to_markdown c3Blocks ≠ blocks_to_markdown_claim c3Blocks := by
  refine ⟨by decide, by decide, by decide⟩

/-! ## C4: code-block mode accumulation -/

/-- C4 counterexample: the parser right-strips every line, including lines
inside code-block mode, so the code line with a trailing space is stored
without it: the emitted content is not the verbatim text between the
fences. -/
theorem c4_trailing_whitespace_cx :
    parse_markdown_to_blocks (lit "```\nx \n```")
        = .ok [{ btype := lit "code", data := { content := some (lit "x") } }]
    ∧ lit "x" ≠ lit "x " := by
  refine ⟨by decide, by decide⟩

/-- C4 amended: while in code-block mode every line is accumulated after
right-stripping only (blank lines and leading whitespace are preserved,
trailing whitespace is removed), bypassing every other parsing rule; the
emitted code block's content is the newline-join of the right-stripped
lines (the `content` key is omitted exactly when that join is empty).
Stated for fences without a language tag; the hypothesis only excludes
lines that would close the fence. -/
theorem c4_code_mode_rstrip :
    ∀ (ls rest : List Pstr) (i : Nat),
      (∀ l ∈ ls, startsWith (rstrip l) (lit "```") = false) →
      parseGo (ls ++ lit "```" :: rest) i true [] []
        = (do
            let bs ← parseGo rest (i + ls.length + 1) false (ls.map rstrip) []
            .ok ({ btype := lit "code",
                   data := { content :=
                     if joinNL (ls.map rstrip) = [] then none
                     else some (joinNL (ls.map rstrip)) } } :: bs)) := by
  intro ls rest i h
  rw [parseGo_code_mode ls rest i [] [] h, List.nil_append,
    closeCodeBlock_no_lang, exceptBind_ok]

/-- Witness for C4 at concrete code lines with leading whitespace, a blank
line, trailing whitespace, and a to_do-looking line that other rules would
otherwise capture. -/
theorem c4_code_mode_rstrip_witness :
    (∀ l ∈ [lit "  a", lit "", lit "[x] b "],
        startsWith (rstrip l) (lit "```") = false)
    ∧ parseGo ([lit "  a", lit "", lit "[x] b "] ++ lit "```" :: [lit "x"]) 0 true [] []
        = (do
            let bs ← parseGo [lit "x"]
                (0 + [lit "  a", lit "", lit "[x] b "].length + 1) false
                ([lit "  a", lit "", lit "[x] b "].map rstrip) []
            .ok ({ btype := lit "code",
                   data := { content :=
                     if joinNL ([lit "  a", lit "", lit "[x] b "].map rstrip) = [] then none
                     else some (joinNL ([lit "  a", lit "", lit "[x] b "].map rstrip)) } }
                 :: bs)) :=
  ⟨by decide, c4_code_mode_rstrip [lit "  a", lit "", lit "[x] b "] [lit "x"] 0 (by decide)⟩

/-! ## C7: subtask aggregation -/

/-- The store produced by `update_checked`. -/
def updStore (st : Store) (k : Pstr) (v : Bool) : Store :=
  st.map (fun e => if e.1 = k then (e.1, { e.2 with checked := v }) else e)

theorem lookupB_cons (hd : Pstr × NBlock) (t : Store) (k : Pstr) :
    lookupB (hd :: t) k = if hd.1 = k then some hd.2 else lookupB t k := by
  unfold lookupB
  by_cases hhd : hd.1 = k
  · rw [List.find?_cons_of_pos _ (by simp [hhd]), if_pos hhd]
    rfl
  · rw [List.find?_cons_of_neg _ (by simp [hhd]), if_neg hhd]

theorem updStore_cons (hd : Pstr × NBlock) (t : Store) (k : Pstr) (v : Bool) :
    updStore (hd :: t) k v
      = (if hd.1 = k then (hd.1, { hd.2 with checked := v }) else hd) :: updStore t k v := by
  unfold updStore
  rw [List.map_cons]

theorem update_checked_eq (st : Store) (k : Pstr) (v : Bool) (bv : NBlock)
    (h : lookupB st k = some bv) :
    update_checked st k v = .ok (updStore st k v) := by
  unfold update_checked updStore
  rw [h]

theorem get_block_eq (st : Store) (k : Pstr) (bv : NBlock)
    (h : lookupB st k = some bv) : get_block st k = .ok bv := by
  unfold get_block
  rw [h]

theorem lookupB_upd_self (st : Store) (k : Pstr) (v : Bool) (bv : NBlock)
    (h : lookupB st k = some bv) :
    lookupB (updStore st k v) k = some { bv with checked := v } := by
  induction st with
  | nil => simp [lookupB, List.find?] at h
  | cons hd t ih =>
    rw [lookupB_cons] at h
    rw [updStore_cons]
    by_cases hhd : hd.1 = k
    · rw [if_pos hhd] at h ⊢
      rw [lookupB_cons, if_pos hhd]
      injection h with h2
      rw [← h2]
    · rw [if_neg hhd] at h ⊢
      rw [lookupB_cons, if_neg hhd]
      exact ih h

theorem lookupB_upd_other (st : Store) (k j : Pstr) (v : Bool)
    (h : j ≠ k) :
    lookupB (updStore st k v) j = lookupB st j := by
  induction st with
  | nil => rfl
  | cons hd t ih =>
    rw [updStore_cons, lookupB_cons, lookupB_cons]
    by_cases hk : hd.1 = k
    · rw [if_pos hk]
      rw [if_neg (by simp only; rw [hk]; exact fun hc => h hc.symm)]
      rw [if_neg (by rw [hk]; exact fun hc => h hc.symm)]
      exact ih
    · rw [if_neg hk]
      by_cases hj : hd.1 = j
      · rw [if_pos hj, if_pos hj]
      · rw [if_neg hj, if_neg hj]
        exact ih

theorem keys_mem_unique (st : Store) (k : Pstr) (bv : NBlock) :
    (st.map Prod.fst).Nodup → lookupB st k = some bv →
    ∀ e ∈ st, e.1 = k → e.2 = bv := by
  induction st with
  | nil => intro _ _ e he; simp at he
  | cons hd t ih =>
    intro hN h e he hek
    rw [lookupB_cons] at h
    rw [List.map_cons, List.nodup_cons] at hN
    rcases List.mem_cons.mp he with he1 | he2
    · by_cases hhd : hd.1 = k
      · rw [if_pos hhd] at h
        rw [he1]
        exact Option.some.inj h
      · rw [he1] at hek
        exact absurd hek hhd
    · by_cases hhd : hd.1 = k
      · exfalso
        apply hN.1
        rw [hhd, ← hek]
        exact List.mem_map_of_mem Prod.fst he2
      · rw [if_neg hhd] at h
        exact ih hN.2 h e he2 hek

theorem updStore_filter_comm (st : Store) (k : Pstr) (v : Bool)
    (p : NBlock → Bool) (hp : ∀ b : NBlock, p { b with checked := v } = p b) :
    (updStore st k v).filter (fun e => p e.2)
      = updStore (st.filter (fun e => p e.2)) k v := by
  induction st with
  | nil => rfl
  | cons hd t ih =>
    rw [updStore_cons]
    by_cases hk : hd.1 = k
    · rw [if_pos hk]
      by_cases hph : p hd.2 = true
      · have hL : List.filter (fun e => p e.2)
            ((hd.1, { hd.2 with checked := v }) :: updStore t k v)
            = (hd.1, { hd.2 with checked := v })
              :: List.filter (fun e => p e.2) (updStore t k v) :=
          List.filter_cons_of_pos (by show p { hd.2 with checked := v } = true; rw [hp]; exact hph)
        have hR : List.filter (fun e => p e.2) (hd :: t)
            = hd :: List.filter (fun e => p e.2) t :=
          List.filter_cons_of_pos hph
        rw [hL, hR, updStore_cons, if_pos hk, ih]
      · have hL : List.filter (fun e => p e.2)
            ((hd.1, { hd.2 with checked := v }) :: updStore t k v)
            = List.filter (fun e => p e.2) (updStore t k v) :=
          List.filter_cons_of_neg (by show ¬p { hd.2 with checked := v } = true; rw [hp]; exact hph)
        have hR : List.filter (fun e => p e.2) (hd :: t)
            = List.filter (fun e => p e.2) t :=
          List.filter_cons_of_neg hph
        rw [hL, hR, ih]
    · rw [if_neg hk]
      by_cases hph : p hd.2 = true
      · have hL : List.filter (fun e => p e.2) (hd :: updStore t k v)
            = hd :: List.filter (fun e => p e.2) (updStore t k v) :=
          List.filter_cons_of_pos hph
        have hR : List.filter (fun e => p e.2) (hd :: t)
            = hd :: List.filter (fun e => p e.2) t :=
          List.filter_cons_of_pos hph
        rw [hL, hR, updStore_cons, if_neg hk, ih]
      · have hL : List.filter (fun e => p e.2) (hd :: updStore t k v)
            = List.filter (fun e => p e.2) (updStore t k v) :=
          List.filter_cons_of_neg hph
        have hR : List.filter (fun e => p e.2) (hd :: t)
            = List.filter (fun e => p e.2) t :=
          List.filter_cons_of_neg hph
        rw [hL, hR, ih]

theorem updStore_id_of_no_key (l : Store) (k : Pstr) (v : Bool)
    (h : ∀ e ∈ l, e.1 ≠ k) : updStore l k v = l := by
  induction l with
  | nil => rfl
  | cons hd t ih =>
    rw [updStore_cons, if_neg (h hd (by simp))]
    rw [ih (fun e he => h e (by simp [he]))]

/-- C7 amended: when `update_subtask_status` changes a subtask whose
containing parent block exists, the parent has no self-loop, the store ids
are unique, and the parent has AT MOST 100 direct children (one pagination
page), then afterwards the parent's checked state equals the conjunction of
the checked states of all its direct subtask children.  (With more than
100 direct children the single-page fetch truncates the sibling set and
the invariant can fail; see the counterexample.) -/
theorem c7_subtask_aggregate :
    ∀ (st : Store) (sid pid : Pstr) (v : Bool) (sub par : NBlock),
      (st.map Prod.fst).Nodup →
      lookupB st sid = some sub →
      sub.parent = some pid →
      lookupB st pid = some par →
      par.parent ≠ some pid →
      (st.filter (fun e => e.2.parent = some pid)).length ≤ 100 →
      ∃ st2 ret,
        update_subtask_status st sid v true = .ok (st2, ret)
        ∧ (lookupB st2 pid).map NBlock.checked
            = some ((allSubtaskChildren st2 pid).all (fun e => e.2.checked)) := by
  intro st sid pid v sub par hN hsub hsp hpar hpp hlen
  have hne : pid ≠ sid := by
    intro hcon
    have h1 : sub = par := by
      rw [hcon] at hpar
      rw [hsub] at hpar
      exact Option.some.inj hpar
    exact hpp (h1 ▸ hsp)
  have hup1 := update_checked_eq st sid v sub hsub
  have hsub1 : lookupB (updStore st sid v) sid = some { sub with checked := v } :=
    lookupB_upd_self st sid v sub hsub
  have hpar1 : lookupB (updStore st sid v) pid = some par := by
    rw [lookupB_upd_other st sid pid v hne]
    exact hpar
  -- the sibling fetch sees exactly the direct children (no truncation)
  have hfil1 : List.filter (fun e => e.2.parent = some pid) (updStore st sid v)
      = updStore (List.filter (fun e => e.2.parent = some pid) st) sid v :=
    updStore_filter_comm st sid v (fun b => decide (b.parent = some pid))
      (fun b => rfl)
  have hlen1 : (List.filter (fun e => e.2.parent = some pid) (updStore st sid v)).length ≤ 100 := by
    rw [hfil1]
    unfold updStore
    rw [List.length_map]
    exact hlen
  have htake : (List.filter (fun e => e.2.parent = some pid) (updStore st sid v)).take 100
      = List.filter (fun e => e.2.parent = some pid) (updStore st sid v) :=
    List.take_of_length_le hlen1
  have hup2 := update_checked_eq (updStore st sid v) pid
      ((get_subtasks (updStore st sid v) pid 100).all (fun e => e.2.checked)) par hpar1
  have hpar2 := lookupB_upd_self (updStore st sid v) pid
      ((get_subtasks (updStore st sid v) pid 100).all (fun e => e.2.checked)) par hpar1
  refine ⟨updStore (updStore st sid v) pid
            ((get_subtasks (updStore st sid v) pid 100).all (fun e => e.2.checked)),
          { par with checked :=
              (get_subtasks (updStore st sid v) pid 100).all (fun e => e.2.checked) },
          ?_, ?_⟩
  · unfold update_subtask_status
    rw [hup1, exceptBind_ok]
    rw [if_pos rfl]
    rw [get_block_eq _ _ _ hsub1, exceptBind_ok]
    have hsp1 : ({ sub with checked := v } : NBlock).parent = some pid := hsp
    rw [hsp1]
    simp only [hup2, get_block_eq _ _ _ hpar2, exceptBind_ok]
  · rw [hpar2]
    have hchildren : List.filter (fun e => e.2.parent = some pid)
        (updStore (updStore st sid v) pid
          ((get_subtasks (updStore st sid v) pid 100).all (fun e => e.2.checked)))
        = List.filter (fun e => e.2.parent = some pid) (updStore st sid v) := by
      have hstep : List.filter (fun e => e.2.parent = some pid)
          (updStore (updStore st sid v) pid
            ((get_subtasks (updStore st sid v) pid 100).all (fun e => e.2.checked)))
          = updStore
              (List.filter (fun e => e.2.parent = some pid) (updStore st sid v)) pid
              ((get_subtasks (updStore st sid v) pid 100).all (fun e => e.2.checked)) :=
        updStore_filter_comm _ _ _ (fun b => decide (b.parent = some pid)) (fun b => rfl)
      rw [hstep]
      apply updStore_id_of_no_key
      intro e he hek
      have hmem := (List.mem_filter.mp he).1
      have hprop := (List.mem_filter.mp he).2
      obtain ⟨e0, he0, heq⟩ := List.mem_map.mp hmem
      have hkey : e.1 = e0.1 := by
        rw [← heq]
        by_cases hc : e0.1 = sid
        · rw [if_pos hc]
        · rw [if_neg hc]
      have hparent : e.2.parent = e0.2.parent := by
        rw [← heq]
        by_cases hc : e0.1 = sid
        · rw [if_pos hc]
        · rw [if_neg hc]
      have he0pid : e0.1 = pid := by rw [← hkey]; exact hek
      have he0par : e0.2 = par := keys_mem_unique st pid par hN hpar e0 he0 he0pid
      have : e.2.parent = some pid := by
        simpa using hprop
      rw [hparent, he0par] at this
      exact hpp this
    unfold allSubtaskChildren
    rw [hchildren]
    unfold get_subtasks get_block_children
    rw [htake]
    rfl

set_option maxRecDepth 20000 in
/-- C7 counterexample: with 101 direct subtask children (child 0 newly
checked, children 1-99 checked, child 100 unchecked) the sibling fetch
reads only the first pagination page of 100 children, so the parent is set
to checked although the conjunction over ALL its direct subtask children
is false. -/
theorem c7_pagination_truncation_cx :
    (update_subtask_status c7CxStore (lit "c0") true true).map (fun r =>
        ((lookupB r.1 (lit "p")).map NBlock.checked,
         (allSubtaskChildren r.1 (lit "p")).all (fun e => e.2.checked)))
      = .ok (some true, false) := by
  decide

/-- Witness for C7: the two-subtask scenario of the claim.  Setting the
first subtask leaves the parent unchecked; setting the second afterwards
flips the parent to checked; the amended aggregate invariant is applied at
the first call. -/
theorem c7_subtask_aggregate_witness :
    (∃ st2 ret,
        update_subtask_status c7TwoStore (lit "s1") true true = .ok (st2, ret)
        ∧ (lookupB st2 (lit "p")).map NBlock.checked
            = some ((allSubtaskChildren st2 (lit "p")).all (fun e => e.2.checked)))
    ∧ update_subtask_status c7TwoStore (lit "s1") true true
        = .ok (c7TwoStoreMid, { btype := lit "to_do", checked := false })
    ∧ (update_subtask_status c7TwoStoreMid (lit "s2") true true).map
        (fun r => (lookupB r.1 (lit "p")).map NBlock.checked) = .ok (some true) :=
  ⟨c7_subtask_aggregate c7TwoStore (lit "s1") (lit "p") true
      { btype := lit "to_do", checked := false, is_subtask := true,
        parent := some (lit "p") }
      { btype := lit "to_do" }
      (by decide) (by decide) (by decide) (by decide) (by decide) (by decide),
   by decide, by decide⟩

/-! ## C1: round trip between parse_markdown_to_blocks and blocks_to_markdown -/

theorem notTrue_of_eqFalse {b : Bool} (h : b = false) : ¬b = true := by
  rw [h]
  simp

theorem digitChar_isDig (m : Nat) (h : m < 10) : isDig (Nat.digitChar m) = true := by
  interval_cases m <;> decide

theorem natDigitsAux_succ (f n : Nat) (acc : List Char) :
    natDigitsAux (f + 1) n acc
      = if n = 0 then acc
        else natDigitsAux f (n / 10) (Nat.digitChar (n % 10) :: acc) := rfl

theorem natDigitsAux_suffix (fuel : Nat) : ∀ (n : Nat) (acc : List Char),
    ∃ pre, natDigitsAux fuel n acc = pre ++ acc ∧ ∀ x ∈ pre, isDig x = true := by
  induction fuel with
  | zero => exact fun n acc => ⟨[], rfl, by simp⟩
  | succ f ih =>
    intro n acc
    by_cases hn : n = 0
    · refine ⟨[], ?_, by simp⟩
      rw [natDigitsAux_succ, if_pos hn]
      rfl
    · obtain ⟨pre, hpre, hdig⟩ := ih (n / 10) (Nat.digitChar (n % 10) :: acc)
      refine ⟨pre ++ [Nat.digitChar (n % 10)], ?_, ?_⟩
      · rw [natDigitsAux_succ, if_neg hn, hpre, List.append_assoc]
        rfl
      · intro x hx
        rcases List.mem_append.mp hx with h1 | h1
        · exact hdig x h1
        · have hx2 : x = Nat.digitChar (n % 10) := by simpa using h1
          subst hx2
          exact digitChar_isDig _ (Nat.mod_lt _ (by decide))

theorem natDigits_ne_nil (n : Nat) : natDigits n ≠ [] := by
  unfold natDigits
  by_cases hn : n = 0
  · rw [if_pos hn]
    simp
  · rw [if_neg hn]
    obtain ⟨f, hf⟩ : ∃ f, n = f + 1 := ⟨n - 1, by omega⟩
    obtain ⟨pre, hpre, _⟩ :=
      natDigitsAux_suffix f ((f + 1) / 10) [Nat.digitChar ((f + 1) % 10)]
    rw [hf, natDigitsAux_succ, if_neg (by omega), hpre]
    simp

theorem natDigits_all_dig (n : Nat) : ∀ x ∈ natDigits n, isDig x = true := by
  unfold natDigits
  by_cases hn : n = 0
  · rw [if_pos hn]
    intro x hx
    have hx2 : x = '0' := by simpa using hx
    subst hx2
    decide
  · rw [if_neg hn]
    obtain ⟨pre, hpre, hdig⟩ := natDigitsAux_suffix n n []
    rw [hpre]
    intro x hx
    rcases List.mem_append.mp hx with h1 | h1
    · exact hdig x h1
    · simp at h1

theorem isDig_char_facts (d : Char) (hd : isDig d = true) :
    ¬('#' = d) ∧ ¬('-' = d) ∧ ¬('[' = d) ∧ ¬('>' = d) ∧ ¬('`' = d)
      ∧ pyIsSpace d = false ∧ ¬d = '\n' := by
  have hmem : d ∈ digitChars := by simpa [isDig] using hd
  fin_cases hmem <;> decide

theorem isPrefixOf_cons_cons (p0 d : Char) (ps t : Pstr) :
    List.isPrefixOf (p0 :: ps) (d :: t) = (p0 == d && List.isPrefixOf ps t) := rfl

theorem startsWith_cons_ne (p0 d : Char) (ps t : Pstr) (h : ¬p0 = d) :
    startsWith (d :: t) (p0 :: ps) = false := by
  unfold startsWith
  rw [isPrefixOf_cons_cons]
  have hb : (p0 == d) = false := by simpa using h
  rw [hb]
  rfl

theorem startsWith_append_self (p s : Pstr) : startsWith (p ++ s) p = true := by
  unfold startsWith
  simp [List.isPrefixOf_iff_prefix]

theorem map_rstrip_id (ls : List Pstr) (h : ∀ l ∈ ls, rstrip l = l) :
    ls.map rstrip = ls := by
  induction ls with
  | nil => rfl
  | cons l t ih =>
    rw [List.map_cons, h l (by simp), ih (fun x hx => h x (by simp [hx]))]

theorem takeWhile_append_of_all (p : Char → Bool) (l r : Pstr)
    (h : ∀ x ∈ l, p x = true) :
    (l ++ r).takeWhile p = l ++ r.takeWhile p := by
  induction l with
  | nil => rfl
  | cons a t ih =>
    rw [List.cons_append, List.takeWhile_cons_of_pos (h a (by simp)),
        ih (fun x hx => h x (by simp [hx])), List.cons_append]

theorem validateContent_clean (c : Pstr) (hne : c ≠ []) (hs : strip c = c)
    (hlen : c.length ≤ 2000) : validateContent c = .ok c := by
  unfold validateContent
  rw [if_neg (by simp [hs, hne]), if_neg (by omega), hs]

theorem create_rich_text_clean (c : Pstr) (hne : c ≠ []) (hs : strip c = c)
    (hlen : c.length ≤ 2000) :
    create_rich_text (some c) none none = .ok (rtOf c) := by
  unfold create_rich_text
  rw [if_neg (by simp [hne])]
  rw [show checkAnnotsWithColor none = Except.ok () from rfl, exceptBind_ok]
  rw [show (Option.getD (some c) []) = c from rfl]
  rw [validateContent_clean c hne hs hlen, exceptBind_ok]
  rfl

theorem create_block_clean (c : Pstr) (t : Pstr) (ep : ExtraProps)
    (hne : c ≠ []) (hs : strip c = c) (hlen : c.length ≤ 2000)
    (htc : t ≠ lit "code") :
    create_block c (.e t) none ep
      = .ok { btype := t,
              data := { rich_text := some (rtOf c), checked := ep.checked,
                        language := ep.language } } := by
  unfold create_block
  rw [if_neg (by simp [hne])]
  rw [show convertBType (.e t) = Except.ok () from rfl, exceptBind_ok]
  rw [show checkAnnKeys none = Except.ok () from rfl, exceptBind_ok]
  rw [show BTArg.val (.e t) = t from rfl, if_neg htc]
  rw [create_rich_text_clean c hne hs hlen, exceptBind_ok]

theorem exceptBind_pure {ε α β : Type} (a : α) (f : α → Except ε β) :
    ((pure a : Except ε α) >>= f) = f a := rfl

theorem extraProps_language (c : Option Bool) (l : Option Pstr) :
    ExtraProps.language { checked := c, language := l } = l := rfl

theorem create_block_code (content : Pstr) (lang : Pstr)
    (hne : lang ≠ []) (hs : strip lang = lang) (hlen : lang.length ≤ 2000)
    (hco : content ≠ []) :
    create_block content (.e (lit "code")) none { language := some lang }
      = .ok { btype := lit "code",
              data := { rich_text := some (rtOf lang), language := some lang,
                        content := some content } } := by
  unfold create_block
  rw [if_neg (by simp [BTArg.val])]
  rw [show convertBType (.e (lit "code")) = Except.ok () from rfl, exceptBind_ok]
  rw [show checkAnnKeys none = Except.ok () from rfl, exceptBind_ok]
  rw [show BTArg.val (.e (lit "code")) = lit "code" from rfl, if_pos rfl]
  have hrt := create_rich_text_clean lang hne hs hlen
  simp only [extraProps_language, hrt, exceptBind_ok, exceptBind_pure]
  rw [if_pos hco]

theorem closeCodeBlock_with_lang (cc : List Pstr) (lang : Pstr)
    (hne : lang ≠ []) (hs : strip lang = lang) (hlen : lang.length ≤ 2000)
    (hcc : joinNL cc ≠ []) :
    closeCodeBlock cc lang
      = .ok { btype := lit "code",
              data := { rich_text := some (rtOf lang), language := some lang,
                        content := some (joinNL cc) } } := by
  unfold closeCodeBlock
  rw [if_pos hne]
  exact create_block_code (joinNL cc) lang hne hs hlen hcc

theorem takeWhile_isDig_canonical (n : Nat) (c : Pstr) :
    (natDigits n ++ lit ". " ++ c).takeWhile isDig = natDigits n := by
  rw [List.append_assoc, takeWhile_append_of_all isDig _ _ (natDigits_all_dig n)]
  rw [show (lit ". " ++ c).takeWhile isDig = [] from
        List.takeWhile_cons_of_neg (by decide), List.append_nil]

theorem numberedMatch_canonical (n : Nat) (c : Pstr) :
    numberedMatch (natDigits n ++ lit ". " ++ c) = true := by
  simp only [numberedMatch]
  rw [takeWhile_isDig_canonical]
  rw [show (natDigits n ++ lit ". " ++ c).drop (natDigits n).length
        = lit ". " ++ c from by
      rw [List.append_assoc]
      exact List.drop_left (natDigits n) (lit ". " ++ c)]
  rw [startsWith_append_self]
  simp [natDigits_ne_nil n]

theorem dropNumberedMatch_canonical (n : Nat) (c : Pstr) :
    dropNumberedMatch (natDigits n ++ lit ". " ++ c) = c := by
  unfold dropNumberedMatch
  rw [takeWhile_isDig_canonical]
  rw [show (natDigits n).length + 2 = (natDigits n ++ lit ". ").length from by
      rw [List.length_append]
      rfl]
  exact List.drop_left _ _

theorem parseLineBlock_h1 (c : Pstr) (hc : CleanTxt c) :
    parseLineBlock (lit "# " ++ c)
      = .ok { btype := lit "heading_1", data := { rich_text := some (rtOf c) } } := by
  obtain ⟨hne, hls, hrs, hlen, _⟩ := hc
  have hs := strip_eq_of c hrs hls
  unfold parseLineBlock
  rw [if_pos (startsWith_append_self (lit "# ") c)]
  rw [show (lit "# " ++ c).drop 2 = c from List.drop_left (lit "# ") c, hs]
  exact create_block_clean c (lit "heading_1") {} hne hs hlen (by decide)

theorem parseLineBlock_h2 (c : Pstr) (hc : CleanTxt c) :
    parseLineBlock (lit "## " ++ c)
      = .ok { btype := lit "heading_2", data := { rich_text := some (rtOf c) } } := by
  obtain ⟨hne, hls, hrs, hlen, _⟩ := hc
  have hs := strip_eq_of c hrs hls
  have e1 : startsWith (lit "## " ++ c) (lit "# ") = false := rfl
  unfold parseLineBlock
  rw [if_neg (notTrue_of_eqFalse e1)]
  rw [if_pos (startsWith_append_self (lit "## ") c)]
  rw [show (lit "## " ++ c).drop 3 = c from List.drop_left (lit "## ") c, hs]
  exact create_block_clean c (lit "heading_2") {} hne hs hlen (by decide)

theorem parseLineBlock_h3 (c : Pstr) (hc : CleanTxt c) :
    parseLineBlock (lit "### " ++ c)
      = .ok { btype := lit "heading_3", data := { rich_text := some (rtOf c) } } := by
  obtain ⟨hne, hls, hrs, hlen, _⟩ := hc
  have hs := strip_eq_of c hrs hls
  have e1 : startsWith (lit "### " ++ c) (lit "# ") = false := rfl
  have e2 : startsWith (lit "### " ++ c) (lit "## ") = false := rfl
  unfold parseLineBlock
  rw [if_neg (notTrue_of_eqFalse e1), if_neg (notTrue_of_eqFalse e2)]
  rw [if_pos (startsWith_append_self (lit "### ") c)]
  rw [show (lit "### " ++ c).drop 4 = c from List.drop_left (lit "### ") c, hs]
  exact create_block_clean c (lit "heading_3") {} hne hs hlen (by decide)

theorem parseLineBlock_bullet (c : Pstr) (hc : CleanTxt c) :
    parseLineBlock (lit "- " ++ c)
      = .ok { btype := lit "bulleted_list_item",
              data := { rich_text := some (rtOf c) } } := by
  obtain ⟨hne, hls, hrs, hlen, _⟩ := hc
  have hs := strip_eq_of c hrs hls
  have e1 : startsWith (lit "- " ++ c) (lit "# ") = false := rfl
  have e2 : startsWith (lit "- " ++ c) (lit "## ") = false := rfl
  have e3 : startsWith (lit "- " ++ c) (lit "### ") = false := rfl
  unfold parseLineBlock
  rw [if_neg (notTrue_of_eqFalse e1), if_neg (notTrue_of_eqFalse e2),
      if_neg (notTrue_of_eqFalse e3)]
  rw [if_pos (startsWith_append_self (lit "- ") c)]
  rw [show (lit "- " ++ c).drop 2 = c from List.drop_left (lit "- ") c, hs]
  exact create_block_clean c (lit "bulleted_list_item") {} hne hs hlen (by decide)

theorem parseLineBlock_numbered (n : Nat) (c : Pstr) (hc : CleanTxt c) :
    parseLineBlock (natDigits n ++ lit ". " ++ c)
      = .ok { btype := lit "numbered_list_item",
              data := { rich_text := some (rtOf c) } } := by
  obtain ⟨hne, hls, hrs, hlen, _⟩ := hc
  have hs := strip_eq_of c hrs hls
  obtain ⟨d, t, hnd⟩ : ∃ d t, natDigits n = d :: t := by
    cases hx : natDigits n with
    | nil => exact absurd hx (natDigits_ne_nil n)
    | cons d t => exact ⟨d, t, rfl⟩
  · have hd : isDig d = true := natDigits_all_dig n d (by rw [hnd]; simp)
    obtain ⟨hH, hD, hB, hG, hT, _, _⟩ := isDig_char_facts d hd
    have hline : natDigits n ++ lit ". " ++ c = d :: (t ++ (lit ". " ++ c)) := by
      rw [hnd]
      simp
    have e1 : startsWith (natDigits n ++ lit ". " ++ c) (lit "# ") = false := by
      rw [hline]
      exact startsWith_cons_ne '#' d _ _ hH
    have e2 : startsWith (natDigits n ++ lit ". " ++ c) (lit "## ") = false := by
      rw [hline]
      exact startsWith_cons_ne '#' d _ _ hH
    have e3 : startsWith (natDigits n ++ lit ". " ++ c) (lit "### ") = false := by
      rw [hline]
      exact startsWith_cons_ne '#' d _ _ hH
    have e4 : startsWith (natDigits n ++ lit ". " ++ c) (lit "- ") = false := by
      rw [hline]
      exact startsWith_cons_ne '-' d _ _ hD
    unfold parseLineBlock
    rw [if_neg (notTrue_of_eqFalse e1), if_neg (notTrue_of_eqFalse e2),
        if_neg (notTrue_of_eqFalse e3), if_neg (notTrue_of_eqFalse e4),
        if_pos (numberedMatch_canonical n c)]
    rw [dropNumberedMatch_canonical n c, hs]
    exact create_block_clean c (lit "numbered_list_item") {} hne hs hlen (by decide)

theorem parseLineBlock_todoFalse (c : Pstr) (hc : CleanTxt c) :
    parseLineBlock (lit "[ ] " ++ c)
      = .ok { btype := lit "to_do",
              data := { rich_text := some (rtOf c), checked := some false } } := by
  obtain ⟨hne, hls, hrs, hlen, _⟩ := hc
  have hs := strip_eq_of c hrs hls
  have e1 : startsWith (lit "[ ] " ++ c) (lit "# ") = false := rfl
  have e2 : startsWith (lit "[ ] " ++ c) (lit "## ") = false := rfl
  have e3 : startsWith (lit "[ ] " ++ c) (lit "### ") = false := rfl
  have e4 : startsWith (lit "[ ] " ++ c) (lit "- ") = false := rfl
  have e5 : numberedMatch (lit "[ ] " ++ c) = false := rfl
  unfold parseLineBlock
  rw [if_neg (notTrue_of_eqFalse e1), if_neg (notTrue_of_eqFalse e2),
      if_neg (notTrue_of_eqFalse e3), if_neg (notTrue_of_eqFalse e4),
      if_neg (notTrue_of_eqFalse e5)]
  rw [if_pos (startsWith_append_self (lit "[ ] ") c)]
  rw [show (lit "[ ] " ++ c).drop 4 = c from List.drop_left (lit "[ ] ") c, hs]
  exact create_block_clean c (lit "to_do") { checked := some false }
    hne hs hlen (by decide)

theorem parseLineBlock_todoTrue (c : Pstr) (hc : CleanTxt c) :
    parseLineBlock (lit "[x] " ++ c)
      = .ok { btype := lit "to_do",
              data := { rich_text := some (rtOf c), checked := some true } } := by
  obtain ⟨hne, hls, hrs, hlen, _⟩ := hc
  have hs := strip_eq_of c hrs hls
  have e1 : startsWith (lit "[x] " ++ c) (lit "# ") = false := rfl
  have e2 : startsWith (lit "[x] " ++ c) (lit "## ") = false := rfl
  have e3 : startsWith (lit "[x] " ++ c) (lit "### ") = false := rfl
  have e4 : startsWith (lit "[x] " ++ c) (lit "- ") = false := rfl
  have e5 : numberedMatch (lit "[x] " ++ c) = false := rfl
  have e6 : startsWith (lit "[x] " ++ c) (lit "[ ] ") = false := rfl
  unfold parseLineBlock
  rw [if_neg (notTrue_of_eqFalse e1), if_neg (notTrue_of_eqFalse e2),
      if_neg (notTrue_of_eqFalse e3), if_neg (notTrue_of_eqFalse e4),
      if_neg (notTrue_of_eqFalse e5), if_neg (notTrue_of_eqFalse e6)]
  rw [if_pos (startsWith_append_self (lit "[x] ") c)]
  rw [show (lit "[x] " ++ c).drop 4 = c from List.drop_left (lit "[x] ") c, hs]
  exact create_block_clean c (lit "to_do") { checked := some true }
    hne hs hlen (by decide)

theorem parseLineBlock_quote (c : Pstr) (hc : CleanTxt c) :
    parseLineBlock (lit "> " ++ c)
      = .ok { btype := lit "quote", data := { rich_text := some (rtOf c) } } := by
  obtain ⟨hne, hls, hrs, hlen, _⟩ := hc
  have hs := strip_eq_of c hrs hls
  have e1 : startsWith (lit "> " ++ c) (lit "# ") = false := rfl
  have e2 : startsWith (lit "> " ++ c) (lit "## ") = false := rfl
  have e3 : startsWith (lit "> " ++ c) (lit "### ") = false := rfl
  have e4 : startsWith (lit "> " ++ c) (lit "- ") = false := rfl
  have e5 : numberedMatch (lit "> " ++ c) = false := rfl
  have e6 : startsWith (lit "> " ++ c) (lit "[ ] ") = false := rfl
  have e7 : startsWith (lit "> " ++ c) (lit "[x] ") = false := rfl
  unfold parseLineBlock
  rw [if_neg (notTrue_of_eqFalse e1), if_neg (notTrue_of_eqFalse e2),
      if_neg (notTrue_of_eqFalse e3), if_neg (notTrue_of_eqFalse e4),
      if_neg (notTrue_of_eqFalse e5), if_neg (notTrue_of_eqFalse e6),
      if_neg (notTrue_of_eqFalse e7)]
  rw [if_pos (startsWith_append_self (lit "> ") c)]
  rw [show (lit "> " ++ c).drop 2 = c from List.drop_left (lit "> ") c, hs]
  exact create_block_clean c (lit "quote") {} hne hs hlen (by decide)

theorem parseLineBlock_para (c : Pstr) (hc : CleanTxt c) (hp : ParaFree c) :
    parseLineBlock c
      = .ok { btype := lit "paragraph", data := { rich_text := some (rtOf c) } } := by
  obtain ⟨hne, hls, hrs, hlen, _⟩ := hc
  obtain ⟨_, pa, pb, pc2, pd, pnum, pe, pf2, pg⟩ := hp
  have hs := strip_eq_of c hrs hls
  unfold parseLineBlock
  rw [if_neg (notTrue_of_eqFalse pa), if_neg (notTrue_of_eqFalse pb),
      if_neg (notTrue_of_eqFalse pc2), if_neg (notTrue_of_eqFalse pd),
      if_neg (notTrue_of_eqFalse pnum), if_neg (notTrue_of_eqFalse pe),
      if_neg (notTrue_of_eqFalse pf2), if_neg (notTrue_of_eqFalse pg)]
  rw [hs]
  exact create_block_clean c (lit "paragraph") {} hne hs hlen (by decide)

theorem parseGo_step_line (l : Pstr) (rest : List Pstr) (i : Nat) (cc : List Pstr)
    (b : Block) (bs : List Block)
    (hrs : rstrip l = l) (hb : l ≠ [])
    (hf : startsWith l (lit "```") = false)
    (hpl : parseLineBlock l = .ok b)
    (hrest : parseGo rest (i + 1) false cc [] = .ok bs) :
    parseGo (l :: rest) i false cc [] = .ok (b :: bs) := by
  rw [parseGo_cons_line l rest i cc []
        (by rw [hrs]; exact hb) (by rw [hrs]; exact hf)]
  rw [hrs, hpl]
  rw [show wrapLineErr i (Except.ok b) = Except.ok b from rfl, exceptBind_ok]
  rw [hrest, exceptBind_ok]

theorem parseGo_renderGo (doc : List MdItem) : ∀ (i ctr : Nat) (cc : List Pstr),
    CleanDoc doc →
    parseGo (renderGo doc ctr) i false cc [] = .ok (blocksOf doc) := by
  induction doc with
  | nil =>
    intro i ctr cc _
    rfl
  | cons it rest ih =>
    intro i ctr cc h
    have hit : CleanItem it := h it (by simp)
    have hrest : CleanDoc rest := fun x hx => h x (by simp [hx])
    cases it with
    | h1 c =>
      obtain ⟨hcne, hcls, hcrs, hclen, _⟩ := hit
      exact parseGo_step_line _ _ _ _ _ _
        (rstrip_append_clean (lit "# ") c hcrs hcne) (by exact List.cons_ne_nil _ _)
        (rfl : startsWith (lit "# " ++ c) (lit "```") = false)
        (parseLineBlock_h1 c ⟨hcne, hcls, hcrs, hclen, by assumption⟩)
        (ih (i + 1) 0 cc hrest)
    | h2 c =>
      obtain ⟨hcne, hcls, hcrs, hclen, _⟩ := hit
      exact parseGo_step_line _ _ _ _ _ _
        (rstrip_append_clean (lit "## ") c hcrs hcne) (by exact List.cons_ne_nil _ _)
        (rfl : startsWith (lit "## " ++ c) (lit "```") = false)
        (parseLineBlock_h2 c ⟨hcne, hcls, hcrs, hclen, by assumption⟩)
        (ih (i + 1) 0 cc hrest)
    | h3 c =>
      obtain ⟨hcne, hcls, hcrs, hclen, _⟩ := hit
      exact parseGo_step_line _ _ _ _ _ _
        (rstrip_append_clean (lit "### ") c hcrs hcne) (by exact List.cons_ne_nil _ _)
        (rfl : startsWith (lit "### " ++ c) (lit "```") = false)
        (parseLineBlock_h3 c ⟨hcne, hcls, hcrs, hclen, by assumption⟩)
        (ih (i + 1) 0 cc hrest)
    | bullet c =>
      obtain ⟨hcne, hcls, hcrs, hclen, _⟩ := hit
      exact parseGo_step_line _ _ _ _ _ _
        (rstrip_append_clean (lit "- ") c hcrs hcne) (by exact List.cons_ne_nil _ _)
        (rfl : startsWith (lit "- " ++ c) (lit "```") = false)
        (parseLineBlock_bullet c ⟨hcne, hcls, hcrs, hclen, by assumption⟩)
        (ih (i + 1) 0 cc hrest)
    | numbered c =>
      obtain ⟨hcne, hcls, hcrs, hclen, _⟩ := hit
      obtain ⟨d, t, hnd⟩ : ∃ d t, natDigits (ctr + 1) = d :: t := by
        cases hx : natDigits (ctr + 1) with
        | nil => exact absurd hx (natDigits_ne_nil (ctr + 1))
        | cons d t => exact ⟨d, t, rfl⟩
      have hd : isDig d = true := natDigits_all_dig (ctr + 1) d (by rw [hnd]; simp)
      obtain ⟨_, _, _, _, hT, _, _⟩ := isDig_char_facts d hd
      have hline : natDigits (ctr + 1) ++ lit ". " ++ c
          = d :: (t ++ (lit ". " ++ c)) := by
        rw [hnd]
        simp
      exact parseGo_step_line _ _ _ _ _ _
        (rstrip_append_clean (natDigits (ctr + 1) ++ lit ". ") c hcrs hcne)
        (by rw [hline]; simp)
        (by rw [hline]; exact startsWith_cons_ne '`' d _ _ hT)
        (parseLineBlock_numbered (ctr + 1) c ⟨hcne, hcls, hcrs, hclen, by assumption⟩)
        (ih (i + 1) (ctr + 1) cc hrest)
    | todo bchk c =>
      obtain ⟨hcne, hcls, hcrs, hclen, _⟩ := hit
      cases bchk with
      | false =>
        exact parseGo_step_line _ _ _ _ _ _
          (rstrip_append_clean (lit "[ ] ") c hcrs hcne) (by exact List.cons_ne_nil _ _)
          (rfl : startsWith (lit "[ ] " ++ c) (lit "```") = false)
          (parseLineBlock_todoFalse c ⟨hcne, hcls, hcrs, hclen, by assumption⟩)
          (ih (i + 1) 0 cc hrest)
      | true =>
        exact parseGo_step_line _ _ _ _ _ _
          (rstrip_append_clean (lit "[x] ") c hcrs hcne) (by exact List.cons_ne_nil _ _)
          (rfl : startsWith (lit "[x] " ++ c) (lit "```") = false)
          (parseLineBlock_todoTrue c ⟨hcne, hcls, hcrs, hclen, by assumption⟩)
          (ih (i + 1) 0 cc hrest)
    | quote c =>
      obtain ⟨hcne, hcls, hcrs, hclen, _⟩ := hit
      exact parseGo_step_line _ _ _ _ _ _
        (rstrip_append_clean (lit "> ") c hcrs hcne) (by exact List.cons_ne_nil _ _)
        (rfl : startsWith (lit "> " ++ c) (lit "```") = false)
        (parseLineBlock_quote c ⟨hcne, hcls, hcrs, hclen, by assumption⟩)
        (ih (i + 1) 0 cc hrest)
    | para c =>
      obtain ⟨⟨hcne, hcls, hcrs, hclen, hcnl⟩, hpf⟩ := hit
      exact parseGo_step_line _ _ _ _ _ _
        hcrs hcne hpf.1
        (parseLineBlock_para c ⟨hcne, hcls, hcrs, hclen, hcnl⟩ hpf)
        (ih (i + 1) 0 cc hrest)
    | code lang ls =>
      obtain ⟨hlang, hlines, hjoin⟩ := hit
      have hlsne : ls ≠ [] := by
        intro hcon
        rw [hcon] at hjoin
        exact hjoin rfl
      have hfence : ∀ l ∈ ls, startsWith (rstrip l) (lit "```") = false := by
        intro l hl
        rw [(hlines l hl).1]
        exact (hlines l hl).2.2
      show parseGo ((lit "```" ++ lang) :: (ls ++ lit "```" :: renderGo rest ctr))
            i false cc [] = .ok (blocksOf (.code lang ls :: rest))
      rcases hlang with hlnil | ⟨hlne, hlls, hlrs, hllen, _⟩
      · subst hlnil
        have hrsl : rstrip (lit "```" ++ []) = lit "```" ++ [] := by
          rw [List.append_nil]
          decide
        rw [parseGo_cons_open _ _ _ _ _ (by rw [hrsl]; decide)]
        rw [hrsl, List.append_nil]
        rw [if_neg (by decide : ¬(lit "```").length > 3)]
        rw [parseGo_code_mode ls (renderGo rest ctr) (i + 1) [] [] hfence]
        rw [List.nil_append, map_rstrip_id ls (fun l hl => (hlines l hl).1)]
        rw [closeCodeBlock_no_lang ls, if_neg hjoin, exceptBind_ok]
        rw [ih (i + 1 + ls.length + 1) ctr ls hrest, exceptBind_ok]
        rfl
      · have hlstrip := strip_eq_of lang hlrs hlls
        have hrsl : rstrip (lit "```" ++ lang) = lit "```" ++ lang :=
          rstrip_append_clean (lit "```") lang hlrs hlne
        have hop : startsWith (rstrip (lit "```" ++ lang)) (lit "```") = true := by
          rw [hrsl]
          exact startsWith_append_self (lit "```") lang
        rw [parseGo_cons_open _ _ _ _ _ hop]
        rw [hrsl]
        rw [if_pos ?hlen3]
        case hlen3 =>
          rw [List.length_append]
          have hp := List.length_pos.mpr hlne
          show 3 + lang.length > 3
          omega
        rw [show (lit "```" ++ lang).drop 3 = lang from List.drop_left (lit "```") lang]
        rw [parseGo_code_mode ls (renderGo rest ctr) (i + 1) [] lang hfence]
        rw [List.nil_append, map_rstrip_id ls (fun l hl => (hlines l hl).1)]
        rw [closeCodeBlock_with_lang ls lang hlne hlstrip hllen hjoin, exceptBind_ok]
        rw [ih (i + 1 + ls.length + 1) ctr ls hrest, exceptBind_ok]
        show _ = Except.ok
          ({ btype := lit "code",
             data := { rich_text := if lang = [] then none else some (rtOf lang),
                       language := if lang = [] then none else some lang,
                       content := some (joinNL ls) } } :: blocksOf rest)
        rw [if_neg hlne, if_neg hlne]

theorem btmGo_cons (b : Block) (rbs : List Block) (multi : Bool) (ctr : Nat) :
    btmGo (b :: rbs) multi ctr
      = if b.btype = lit "code" then
          (do
            let contentPiece ←
              if b.data.content.getD [] ≠ [] then some (b.data.content.getD [])
              else firstRichTextContent b.data
            let tail ← btmGo rbs multi ctr
            some ((lit "```" ++ b.data.language.getD []) :: contentPiece
              :: lit "```" :: (if rbs ≠ [] then [[]] else []) ++ tail))
        else
          (do
            let content ← firstRichTextContent b.data
            let piecesAndCtr : List Pstr × Nat :=
              if b.btype = lit "heading_1" then ([lit "# " ++ content], 0)
              else if b.btype = lit "heading_2" then ([lit "## " ++ content], 0)
              else if b.btype = lit "heading_3" then ([lit "### " ++ content], 0)
              else if b.btype = lit "bulleted_list_item" then ([lit "- " ++ content], 0)
              else if b.btype = lit "numbered_list_item" then
                ([natDigits (ctr + 1) ++ lit ". " ++ content], ctr + 1)
              else if b.btype = lit "to_do" then
                ([(if b.data.checked.getD false then lit "[x] " else lit "[ ] ")
                    ++ content], 0)
              else if b.btype = lit "quote" then ([lit "> " ++ content], 0)
              else if b.btype = lit "paragraph" then ([content], 0)
              else ([], ctr)
            let sep : List Pstr :=
              match rbs with
              | [] => if multi then [[]] else []
              | nb :: _ =>
                if (b.btype = lit "numbered_list_item"
                      ∨ b.btype = lit "bulleted_list_item")
                    ∧ b.btype = nb.btype then []
                else [[]]
            let tail ← btmGo rbs multi piecesAndCtr.2
            some (piecesAndCtr.1 ++ sep ++ tail)) := rfl

theorem btmGo_cons_resolved (b : Block) (rbs : List Block) (multi : Bool)
    (ctr ctr2 : Nat) (piece c : Pstr) (tl : List Pstr)
    (hnc : ¬b.btype = lit "code")
    (hrt : firstRichTextContent b.data = some c)
    (hchain : (if b.btype = lit "heading_1" then ([lit "# " ++ c], 0)
        else if b.btype = lit "heading_2" then ([lit "## " ++ c], 0)
        else if b.btype = lit "heading_3" then ([lit "### " ++ c], 0)
        else if b.btype = lit "bulleted_list_item" then ([lit "- " ++ c], 0)
        else if b.btype = lit "numbered_list_item" then
          ([natDigits (ctr + 1) ++ lit ". " ++ c], ctr + 1)
        else if b.btype = lit "to_do" then
          ([(if b.data.checked.getD false then lit "[x] " else lit "[ ] ") ++ c], 0)
        else if b.btype = lit "quote" then ([lit "> " ++ c], 0)
        else if b.btype = lit "paragraph" then ([c], 0)
        else ([], ctr)) = ([piece], ctr2))
    (htl : btmGo rbs multi ctr2 = some tl) :
    ∃ sep, (sep = [] ∨ sep = [[]])
      ∧ btmGo (b :: rbs) multi ctr = some (piece :: (sep ++ tl)) := by
  rw [btmGo_cons, if_neg hnc]
  rw [hrt]
  simp only [optionBind_some]
  simp only [hchain]
  rcases rbs with _ | ⟨nb, rbs2⟩
  · refine ⟨if multi then [[]] else [], by cases multi <;> simp, ?_⟩
    rw [htl]
    simp only [optionBind_some]
    rfl
  · by_cases hcond : (b.btype = lit "numbered_list_item"
        ∨ b.btype = lit "bulleted_list_item") ∧ b.btype = nb.btype
    · refine ⟨[], Or.inl rfl, ?_⟩
      simp only [htl, optionBind_some]
      rw [if_pos hcond]
      rfl
    · refine ⟨[[]], Or.inr rfl, ?_⟩
      simp only [htl, optionBind_some]
      rw [if_neg hcond]
      rfl

theorem flatMap_splitNL_id (lines : List Pstr) (h : ∀ l ∈ lines, '\n' ∉ l) :
    lines.flatMap splitNL = lines := by
  induction lines with
  | nil => rfl
  | cons l t ih =>
    rw [List.flatMap_cons, splitNL_no_newline l (h l (by simp)),
        ih (fun x hx => h x (by simp [hx]))]
    rfl

theorem flatMap_normLines_single (lines : List Pstr)
    (h : ∀ l ∈ lines, '\n' ∉ l) :
    lines.flatMap (fun p => normLines (splitNL p)) = normLines lines := by
  induction lines with
  | nil => rfl
  | cons l t ih =>
    rw [List.flatMap_cons, splitNL_no_newline l (h l (by simp)),
        ih (fun x hx => h x (by simp [hx]))]
    have h1 : normLines [l] = if strip l = [] then [] else [strip l] := by
      rw [normLines_cons]
      by_cases hsl : strip l = []
      · rw [if_pos hsl, if_pos hsl]
        rfl
      · rw [if_neg hsl, if_neg hsl]
        rfl
    have h2 : normLines (l :: t)
        = (if strip l = [] then [] else [strip l]) ++ normLines t := by
      rw [normLines_cons]
      by_cases hsl : strip l = []
      · rw [if_pos hsl, if_pos hsl]
        rfl
      · rw [if_neg hsl, if_neg hsl]
        rfl
    rw [h1, h2]

theorem c1_step_norm (piece : Pstr) (sep tl rl : List Pstr)
    (hsep : sep = [] ∨ sep = [[]])
    (hpiece : '\n' ∉ piece) (hstrip : strip piece = piece) (hne : piece ≠ [])
    (htl : tl.flatMap (fun p => normLines (splitNL p)) = normLines rl) :
    (piece :: (sep ++ tl)).flatMap (fun p => normLines (splitNL p))
      = normLines (piece :: rl) := by
  rw [List.flatMap_cons, List.flatMap_append, htl]
  rw [splitNL_no_newline piece hpiece]
  rw [show normLines [piece] = [piece] from by
      rw [normLines_cons, if_neg (by rw [hstrip]; exact hne), hstrip]
      rfl]
  rw [show sep.flatMap (fun p => normLines (splitNL p)) = [] from by
      rcases hsep with h | h <;> subst h <;> rfl]
  rw [normLines_cons, if_neg (by rw [hstrip]; exact hne), hstrip]
  rfl

theorem c1_code_norm (lang : Pstr) (ls : List Pstr) (sep tl rl : List Pstr)
    (hsep : sep = [] ∨ sep = [[]])
    (hhead : '\n' ∉ lit "```" ++ lang)
    (hheadstrip : strip (lit "```" ++ lang) = lit "```" ++ lang)
    (hlsnl : ∀ l ∈ ls, '\n' ∉ l)
    (hlsne : ls ≠ [])
    (htl : tl.flatMap (fun p => normLines (splitNL p)) = normLines rl) :
    ((lit "```" ++ lang) :: joinNL ls :: lit "```" :: (sep ++ tl)).flatMap
        (fun p => normLines (splitNL p))
      = normLines ((lit "```" ++ lang) :: (ls ++ lit "```" :: rl)) := by
  rw [List.flatMap_cons, List.flatMap_cons, List.flatMap_cons,
      List.flatMap_append, htl]
  rw [splitNL_no_newline _ hhead]
  rw [show normLines [lit "```" ++ lang] = [lit "```" ++ lang] from by
      rw [normLines_cons, if_neg (by rw [hheadstrip]; exact List.cons_ne_nil _ _),
          hheadstrip]
      rfl]
  rw [show normLines (splitNL (joinNL ls)) = normLines ls from by
      rw [splitNL_joinNL ls hlsne, flatMap_splitNL_id ls hlsnl]]
  rw [show normLines (splitNL (lit "```")) = [lit "```"] from by decide]
  rw [show sep.flatMap (fun p => normLines (splitNL p)) = [] from by
      rcases hsep with h | h <;> subst h <;> rfl]
  rw [normLines_cons,
      if_neg (by rw [hheadstrip]; exact List.cons_ne_nil _ _), hheadstrip]
  rw [normLines_append]
  rw [show normLines (lit "```" :: rl) = lit "```" :: normLines rl from by
      rw [normLines_cons, if_neg (by decide),
          show strip (lit "```") = lit "```" from by decide]]
  rfl

theorem btmGo_renderGo (doc : List MdItem) : ∀ (multi : Bool) (ctr : Nat),
    CleanDoc doc →
    ∃ ps, btmGo (blocksOf doc) multi ctr = some ps
      ∧ ps.flatMap (fun p => normLines (splitNL p)) = normLines (renderGo doc ctr) := by
  induction doc with
  | nil =>
    intro multi ctr _
    exact ⟨[], rfl, rfl⟩
  | cons it rest ih =>
    intro multi ctr h
    have hit : CleanItem it := h it (by simp)
    have hrest : CleanDoc rest := fun x hx => h x (by simp [hx])
    cases it with
    | h1 c =>
      obtain ⟨hcne, hcls, hcrs, hclen, hcnl⟩ := hit
      obtain ⟨tl, htl, hn⟩ := ih multi 0 hrest
      obtain ⟨sep, hsep, hstep⟩ := btmGo_cons_resolved
        { btype := lit "heading_1", data := { rich_text := some (rtOf c) } }
        (blocksOf rest) multi ctr 0 (lit "# " ++ c) c tl
        (show ¬(lit "heading_1" = lit "code") from by decide) rfl rfl htl
      have hrs2 : rstrip (lit "# " ++ c) = lit "# " ++ c :=
        rstrip_append_clean (lit "# ") c hcrs hcne
      have hls2 : lstrip (lit "# " ++ c) = lit "# " ++ c :=
        lstrip_cons_nonws '#' (' ' :: c) (by decide)
      have hnl2 : '\n' ∉ lit "# " ++ c := by
        intro hm
        rcases List.mem_append.mp hm with hm | hm
        · exact absurd hm (by decide)
        · exact hcnl hm
      exact ⟨_, hstep, c1_step_norm _ sep tl (renderGo rest 0) hsep hnl2
        (strip_eq_of _ hrs2 hls2) (List.cons_ne_nil _ _) hn⟩
    | h2 c =>
      obtain ⟨hcne, hcls, hcrs, hclen, hcnl⟩ := hit
      obtain ⟨tl, htl, hn⟩ := ih multi 0 hrest
      obtain ⟨sep, hsep, hstep⟩ := btmGo_cons_resolved
        { btype := lit "heading_2", data := { rich_text := some (rtOf c) } }
        (blocksOf rest) multi ctr 0 (lit "## " ++ c) c tl
        (show ¬(lit "heading_2" = lit "code") from by decide) rfl rfl htl
      have hrs2 : rstrip (lit "## " ++ c) = lit "## " ++ c :=
        rstrip_append_clean (lit "## ") c hcrs hcne
      have hls2 : lstrip (lit "## " ++ c) = lit "## " ++ c :=
        lstrip_cons_nonws '#' ('#' :: ' ' :: c) (by decide)
      have hnl2 : '\n' ∉ lit "## " ++ c := by
        intro hm
        rcases List.mem_append.mp hm with hm | hm
        · exact absurd hm (by decide)
        · exact hcnl hm
      exact ⟨_, hstep, c1_step_norm _ sep tl (renderGo rest 0) hsep hnl2
        (strip_eq_of _ hrs2 hls2) (List.cons_ne_nil _ _) hn⟩
    | h3 c =>
      obtain ⟨hcne, hcls, hcrs, hclen, hcnl⟩ := hit
      obtain ⟨tl, htl, hn⟩ := ih multi 0 hrest
      obtain ⟨sep, hsep, hstep⟩ := btmGo_cons_resolved
        { btype := lit "heading_3", data := { rich_text := some (rtOf c) } }
        (blocksOf rest) multi ctr 0 (lit "### " ++ c) c tl
        (show ¬(lit "heading_3" = lit "code") from by decide) rfl rfl htl
      have hrs2 : rstrip (lit "### " ++ c) = lit "### " ++ c :=
        rstrip_append_clean (lit "### ") c hcrs hcne
      have hls2 : lstrip (lit "### " ++ c) = lit "### " ++ c :=
        lstrip_cons_nonws '#' ('#' :: '#' :: ' ' :: c) (by decide)
      have hnl2 : '\n' ∉ lit "### " ++ c := by
        intro hm
        rcases List.mem_append.mp hm with hm | hm
        · exact absurd hm (by decide)
        · exact hcnl hm
      exact ⟨_, hstep, c1_step_norm _ sep tl (renderGo rest 0) hsep hnl2
        (strip_eq_of _ hrs2 hls2) (List.cons_ne_nil _ _) hn⟩
    | bullet c =>
      obtain ⟨hcne, hcls, hcrs, hclen, hcnl⟩ := hit
      obtain ⟨tl, htl, hn⟩ := ih multi 0 hrest
      obtain ⟨sep, hsep, hstep⟩ := btmGo_cons_resolved
        { btype := lit "bulleted_list_item", data := { rich_text := some (rtOf c) } }
        (blocksOf rest) multi ctr 0 (lit "- " ++ c) c tl
        (show ¬(lit "bulleted_list_item" = lit "code") from by decide) rfl rfl htl
      have hrs2 : rstrip (lit "- " ++ c) = lit "- " ++ c :=
        rstrip_append_clean (lit "- ") c hcrs hcne
      have hls2 : lstrip (lit "- " ++ c) = lit "- " ++ c :=
        lstrip_cons_nonws '-' (' ' :: c) (by decide)
      have hnl2 : '\n' ∉ lit "- " ++ c := by
        intro hm
        rcases List.mem_append.mp hm with hm | hm
        · exact absurd hm (by decide)
        · exact hcnl hm
      exact ⟨_, hstep, c1_step_norm _ sep tl (renderGo rest 0) hsep hnl2
        (strip_eq_of _ hrs2 hls2) (List.cons_ne_nil _ _) hn⟩
    | numbered c =>
      obtain ⟨hcne, hcls, hcrs, hclen, hcnl⟩ := hit
      obtain ⟨tl, htl, hn⟩ := ih multi (ctr + 1) hrest
      obtain ⟨sep, hsep, hstep⟩ := btmGo_cons_resolved
        { btype := lit "numbered_list_item", data := { rich_text := some (rtOf c) } }
        (blocksOf rest) multi ctr (ctr + 1)
        (natDigits (ctr + 1) ++ lit ". " ++ c) c tl
        (show ¬(lit "numbered_list_item" = lit "code") from by decide) rfl rfl htl
      obtain ⟨d, t, hnd⟩ : ∃ d t, natDigits (ctr + 1) = d :: t := by
        cases hx : natDigits (ctr + 1) with
        | nil => exact absurd hx (natDigits_ne_nil (ctr + 1))
        | cons d t => exact ⟨d, t, rfl⟩
      have hd : isDig d = true := natDigits_all_dig (ctr + 1) d (by rw [hnd]; simp)
      obtain ⟨_, _, _, _, _, hdps, hdnl⟩ := isDig_char_facts d hd
      have hline : natDigits (ctr + 1) ++ lit ". " ++ c
          = d :: (t ++ (lit ". " ++ c)) := by
        rw [hnd]
        simp
      have hrs2 : rstrip (natDigits (ctr + 1) ++ lit ". " ++ c)
          = natDigits (ctr + 1) ++ lit ". " ++ c :=
        rstrip_append_clean (natDigits (ctr + 1) ++ lit ". ") c hcrs hcne
      have hls2 : lstrip (natDigits (ctr + 1) ++ lit ". " ++ c)
          = natDigits (ctr + 1) ++ lit ". " ++ c := by
        rw [hline]
        exact lstrip_cons_nonws d _ hdps
      have hnl2 : '\n' ∉ natDigits (ctr + 1) ++ lit ". " ++ c := by
        intro hm
        rcases List.mem_append.mp hm with hm | hm
        · rcases List.mem_append.mp hm with hm2 | hm2
          · exact absurd (natDigits_all_dig _ _ hm2) (by decide)
          · exact absurd hm2 (by decide)
        · exact hcnl hm
      exact ⟨_, hstep, c1_step_norm _ sep tl (renderGo rest (ctr + 1)) hsep hnl2
        (strip_eq_of _ hrs2 hls2) (by rw [hline]; exact List.cons_ne_nil _ _) hn⟩
    | todo bchk c =>
      obtain ⟨hcne, hcls, hcrs, hclen, hcnl⟩ := hit
      obtain ⟨tl, htl, hn⟩ := ih multi 0 hrest
      cases bchk with
      | false =>
        obtain ⟨sep, hsep, hstep⟩ := btmGo_cons_resolved
          { btype := lit "to_do",
            data := { rich_text := some (rtOf c), checked := some false } }
          (blocksOf rest) multi ctr 0 (lit "[ ] " ++ c) c tl
          (show ¬(lit "to_do" = lit "code") from by decide) rfl rfl htl
        have hrs2 : rstrip (lit "[ ] " ++ c) = lit "[ ] " ++ c :=
          rstrip_append_clean (lit "[ ] ") c hcrs hcne
        have hls2 : lstrip (lit "[ ] " ++ c) = lit "[ ] " ++ c :=
          lstrip_cons_nonws '[' (' ' :: ']' :: ' ' :: c) (by decide)
        have hnl2 : '\n' ∉ lit "[ ] " ++ c := by
          intro hm
          rcases List.mem_append.mp hm with hm | hm
          · exact absurd hm (by decide)
          · exact hcnl hm
        exact ⟨_, hstep, c1_step_norm _ sep tl (renderGo rest 0) hsep hnl2
          (strip_eq_of _ hrs2 hls2) (List.cons_ne_nil _ _) hn⟩
      | true =>
        obtain ⟨sep, hsep, hstep⟩ := btmGo_cons_resolved
          { btype := lit "to_do",
            data := { rich_text := some (rtOf c), checked := some true } }
          (blocksOf rest) multi ctr 0 (lit "[x] " ++ c) c tl
          (show ¬(lit "to_do" = lit "code") from by decide) rfl rfl htl
        have hrs2 : rstrip (lit "[x] " ++ c) = lit "[x] " ++ c :=
          rstrip_append_clean (lit "[x] ") c hcrs hcne
        have hls2 : lstrip (lit "[x] " ++ c) = lit "[x] " ++ c :=
          lstrip_cons_nonws '[' ('x' :: ']' :: ' ' :: c) (by decide)
        have hnl2 : '\n' ∉ lit "[x] " ++ c := by
          intro hm
          rcases List.mem_append.mp hm with hm | hm
          · exact absurd hm (by decide)
          · exact hcnl hm
        exact ⟨_, hstep, c1_step_norm _ sep tl (renderGo rest 0) hsep hnl2
          (strip_eq_of _ hrs2 hls2) (List.cons_ne_nil _ _) hn⟩
    | quote c =>
      obtain ⟨hcne, hcls, hcrs, hclen, hcnl⟩ := hit
      obtain ⟨tl, htl, hn⟩ := ih multi 0 hrest
      obtain ⟨sep, hsep, hstep⟩ := btmGo_cons_resolved
        { btype := lit "quote", data := { rich_text := some (rtOf c) } }
        (blocksOf rest) multi ctr 0 (lit "> " ++ c) c tl
        (show ¬(lit "quote" = lit "code") from by decide) rfl rfl htl
      have hrs2 : rstrip (lit "> " ++ c) = lit "> " ++ c :=
        rstrip_append_clean (lit "> ") c hcrs hcne
      have hls2 : lstrip (lit "> " ++ c) = lit "> " ++ c :=
        lstrip_cons_nonws '>' (' ' :: c) (by decide)
      have hnl2 : '\n' ∉ lit "> " ++ c := by
        intro hm
        rcases List.mem_append.mp hm with hm | hm
        · exact absurd hm (by decide)
        · exact hcnl hm
      exact ⟨_, hstep, c1_step_norm _ sep tl (renderGo rest 0) hsep hnl2
        (strip_eq_of _ hrs2 hls2) (List.cons_ne_nil _ _) hn⟩
    | para c =>
      obtain ⟨⟨hcne, hcls, hcrs, hclen, hcnl⟩, _⟩ := hit
      obtain ⟨tl, htl, hn⟩ := ih multi 0 hrest
      obtain ⟨sep, hsep, hstep⟩ := btmGo_cons_resolved
        { btype := lit "paragraph", data := { rich_text := some (rtOf c) } }
        (blocksOf rest) multi ctr 0 c c tl
        (show ¬(lit "paragraph" = lit "code") from by decide) rfl rfl htl
      exact ⟨_, hstep, c1_step_norm _ sep tl (renderGo rest 0) hsep hcnl
        (strip_eq_of _ hcrs hcls) hcne hn⟩
    | code lang ls =>
      obtain ⟨hlang, hlines, hjoin⟩ := hit
      obtain ⟨tl, htl, hn⟩ := ih multi ctr hrest
      have hlsne : ls ≠ [] := by
        intro hcon
        rw [hcon] at hjoin
        exact hjoin rfl
      have hlsnl : ∀ l ∈ ls, '\n' ∉ l := fun l hl => (hlines l hl).2.1
      rcases hlang with hlnil | ⟨hlne, hlls, hlrs, hllen, hlnl⟩
      · subst hlnil
        have hstep : btmGo (blocksOf (.code [] ls :: rest)) multi ctr
            = some ((lit "```" ++ []) :: joinNL ls :: lit "```"
                :: ((if blocksOf rest ≠ [] then [[]] else []) ++ tl)) := by
          rw [show blocksOf (.code [] ls :: rest)
                = { btype := lit "code",
                    data := { content := some (joinNL ls) } } :: blocksOf rest from rfl]
          rw [btmGo_cons, if_pos rfl]
          rw [if_pos (show
            ({ btype := lit "code",
               data := { content := some (joinNL ls) } } : Block).data.content.getD []
              ≠ [] from hjoin)]
          simp only [optionBind_some]
          rw [htl]
          simp only [optionBind_some]
          rfl
        have hhead : '\n' ∉ lit "```" ++ ([] : Pstr) := by decide
        have hheadstrip : strip (lit "```" ++ ([] : Pstr)) = lit "```" ++ [] := by decide
        refine ⟨_, hstep, ?_⟩
        exact c1_code_norm [] ls _ tl (renderGo rest ctr)
          (by by_cases hh : blocksOf rest ≠ [] <;> simp [hh])
          hhead hheadstrip hlsnl hlsne hn
      · have hstep : btmGo (blocksOf (.code lang ls :: rest)) multi ctr
            = some ((lit "```" ++ lang) :: joinNL ls :: lit "```"
                :: ((if blocksOf rest ≠ [] then [[]] else []) ++ tl)) := by
          rw [show blocksOf (.code lang ls :: rest)
                = { btype := lit "code",
                    data := { rich_text := if lang = [] then none else some (rtOf lang),
                              language := if lang = [] then none else some lang,
                              content := some (joinNL ls) } } :: blocksOf rest from rfl]
          rw [if_neg hlne, if_neg hlne]
          rw [btmGo_cons, if_pos rfl]
          rw [if_pos (show
            ({ btype := lit "code",
               data := { rich_text := some (rtOf lang), language := some lang,
                         content := some (joinNL ls) } } : Block).data.content.getD []
              ≠ [] from hjoin)]
          simp only [optionBind_some]
          rw [htl]
          simp only [optionBind_some]
          rfl
        have hhead : '\n' ∉ lit "```" ++ lang := by
          intro hm
          rcases List.mem_append.mp hm with hm | hm
          · exact absurd hm (by decide)
          · exact hlnl hm
        have hheadstrip : strip (lit "```" ++ lang) = lit "```" ++ lang :=
          strip_eq_of _ (rstrip_append_clean (lit "```") lang hlrs hlne)
            (lstrip_cons_nonws '`' ('`' :: '`' :: lang) (by decide))
        refine ⟨_, hstep, ?_⟩
        exact c1_code_norm lang ls _ tl (renderGo rest ctr)
          (by by_cases hh : blocksOf rest ≠ [] <;> simp [hh])
          hhead hheadstrip hlsnl hlsne hn

theorem renderGo_no_newline (doc : List MdItem) : ∀ (ctr : Nat), CleanDoc doc →
    ∀ l ∈ renderGo doc ctr, '\n' ∉ l := by
  induction doc with
  | nil =>
    intro ctr _ l hl
    exact absurd hl (by simp [renderGo])
  | cons it rest ih =>
    intro ctr h
    have hit : CleanItem it := h it (by simp)
    have hrest : CleanDoc rest := fun x hx => h x (by simp [hx])
    cases it with
    | h1 c =>
      intro l hl
      rcases List.mem_cons.mp hl with hl | hl
      · subst hl
        intro hm
        rcases List.mem_append.mp hm with hm | hm
        · exact absurd hm (by decide)
        · exact hit.2.2.2.2 hm
      · exact ih 0 hrest l hl
    | h2 c =>
      intro l hl
      rcases List.mem_cons.mp hl with hl | hl
      · subst hl
        intro hm
        rcases List.mem_append.mp hm with hm | hm
        · exact absurd hm (by decide)
        · exact hit.2.2.2.2 hm
      · exact ih 0 hrest l hl
    | h3 c =>
      intro l hl
      rcases List.mem_cons.mp hl with hl | hl
      · subst hl
        intro hm
        rcases List.mem_append.mp hm with hm | hm
        · exact absurd hm (by decide)
        · exact hit.2.2.2.2 hm
      · exact ih 0 hrest l hl
    | bullet c =>
      intro l hl
      rcases List.mem_cons.mp hl with hl | hl
      · subst hl
        intro hm
        rcases List.mem_append.mp hm with hm | hm
        · exact absurd hm (by decide)
        · exact hit.2.2.2.2 hm
      · exact ih 0 hrest l hl
    | numbered c =>
      intro l hl
      rcases List.mem_cons.mp hl with hl | hl
      · subst hl
        intro hm
        rcases List.mem_append.mp hm with hm | hm
        · rcases List.mem_append.mp hm with hm2 | hm2
          · exact absurd (natDigits_all_dig _ _ hm2) (by decide)
          · exact absurd hm2 (by decide)
        · exact hit.2.2.2.2 hm
      · exact ih (ctr + 1) hrest l hl
    | todo bchk c =>
      cases bchk with
      | false =>
        intro l hl
        rcases List.mem_cons.mp hl with hl | hl
        · subst hl
          intro hm
          rcases List.mem_append.mp hm with hm | hm
          · exact absurd hm (by decide)
          · exact hit.2.2.2.2 hm
        · exact ih 0 hrest l hl
      | true =>
        intro l hl
        rcases List.mem_cons.mp hl with hl | hl
        · subst hl
          intro hm
          rcases List.mem_append.mp hm with hm | hm
          · exact absurd hm (by decide)
          · exact hit.2.2.2.2 hm
        · exact ih 0 hrest l hl
    | quote c =>
      intro l hl
      rcases List.mem_cons.mp hl with hl | hl
      · subst hl
        intro hm
        rcases List.mem_append.mp hm with hm | hm
        · exact absurd hm (by decide)
        · exact hit.2.2.2.2 hm
      · exact ih 0 hrest l hl
    | para c =>
      intro l hl
      rcases List.mem_cons.mp hl with hl | hl
      · subst hl
        exact hit.1.2.2.2.2
      · exact ih 0 hrest l hl
    | code lang ls =>
      intro l hl
      rcases List.mem_cons.mp hl with hl | hl
      · subst hl
        intro hm
        rcases List.mem_append.mp hm with hm | hm
        · exact absurd hm (by decide)
        · rcases hit.1 with h0 | h0
          · subst h0
            simp at hm
          · exact h0.2.2.2.2 hm
      · rcases List.mem_append.mp hl with hl | hl
        · exact (hit.2.1 l hl).2.1
        · rcases List.mem_cons.mp hl with hl | hl
          · subst hl
            decide
          · exact ih ctr hrest l hl

theorem renderGo_cons_ex (it : MdItem) (rest : List MdItem) (ctr : Nat)
    (hit : CleanItem it) :
    ∃ l more, renderGo (it :: rest) ctr = l :: more ∧ l ≠ [] := by
  cases it with
  | h1 c => exact ⟨_, _, rfl, List.cons_ne_nil _ _⟩
  | h2 c => exact ⟨_, _, rfl, List.cons_ne_nil _ _⟩
  | h3 c => exact ⟨_, _, rfl, List.cons_ne_nil _ _⟩
  | bullet c => exact ⟨_, _, rfl, List.cons_ne_nil _ _⟩
  | numbered c =>
    refine ⟨_, _, rfl, fun hcon => ?_⟩
    have hlen := congrArg List.length hcon
    rw [List.length_append, List.length_append] at hlen
    have hp := List.length_pos.mpr (natDigits_ne_nil (ctr + 1))
    have h2 : (lit ". ").length = 2 := rfl
    rw [h2] at hlen
    simp at hlen
  | todo bchk c => cases bchk <;> exact ⟨_, _, rfl, List.cons_ne_nil _ _⟩
  | quote c => exact ⟨_, _, rfl, List.cons_ne_nil _ _⟩
  | para c => exact ⟨c, _, rfl, hit.1.1⟩
  | code lang ls => exact ⟨_, _, rfl, List.cons_ne_nil _ _⟩

theorem joinNL_cons_ne_nil (l : Pstr) (more : List Pstr) (hl : l ≠ []) :
    joinNL (l :: more) ≠ [] := by
  cases more with
  | nil => exact hl
  | cons m t =>
    show l ++ '\n' :: joinNL (m :: t) ≠ []
    simp

/-- C1 counterexample to the universally quantified round trip: the markdown
"2. a" is composed solely of a recognized construct (a numbered-list line),
parses to one numbered_list_item block with content "a", but serializes to
"1. a" because `blocks_to_markdown` renumbers from its own counter, so the
normalized sides differ. -/
theorem c1_round_trip_cx :
    parse_markdown_to_blocks (lit "2. a")
        = .ok [{ btype := lit "numbered_list_item",
                 data := { rich_text := some (rtOf (lit "a")) } }]
    ∧ blocks_to_markdown
          [{ btype := lit "numbered_list_item",
             data := { rich_text := some (rtOf (lit "a")) } }]
        = some (lit "1. a")
    ∧ normalizeStr (lit "1. a") ≠ normalizeStr (lit "2. a") := by
  decide

/-- C1 (corrected): the round trip holds for canonical documents.  For every
document whose constructs are clean — contents non-empty, trimmed, within
the 2000-character bound and newline-free; paragraphs not resembling any
other construct; code lines right-stripped, newline-free and not starting
with a fence, with non-empty joined code content; numbered items numbered by
the serializer's counter (rendered via `renderDoc`) — parsing the rendered
markdown yields exactly the expected block list, serializing those blocks
back succeeds, and both sides normalize (trim each line, drop blank lines)
to the same line sequence. -/
theorem c1_round_trip_canonical (doc : List MdItem) (h : CleanDoc doc) :
    ∃ s, parse_markdown_to_blocks (renderDoc doc) = .ok (blocksOf doc)
      ∧ blocks_to_markdown (blocksOf doc) = some s
      ∧ normalizeStr s = normalizeStr (renderDoc doc) := by
  cases doc with
  | nil => exact ⟨[], by decide, by decide, rfl⟩
  | cons it rest =>
    obtain ⟨l0, more, hrg, hl0⟩ := renderGo_cons_ex it rest 0 (h it (by simp))
    have hnl := renderGo_no_newline (it :: rest) 0 h
    have hrdne : renderDoc (it :: rest) ≠ [] := by
      unfold renderDoc
      rw [hrg]
      exact joinNL_cons_ne_nil l0 more hl0
    have hsplit : splitNL (renderDoc (it :: rest)) = renderGo (it :: rest) 0 := by
      unfold renderDoc
      rw [splitNL_joinNL _ (by rw [hrg]; simp)]
      exact flatMap_splitNL_id _ hnl
    have hparse : parse_markdown_to_blocks (renderDoc (it :: rest))
        = .ok (blocksOf (it :: rest)) := by
      unfold parse_markdown_to_blocks
      rw [if_neg hrdne, hsplit]
      exact parseGo_renderGo (it :: rest) 0 0 [] h
    obtain ⟨ps, hps, hnorm⟩ := btmGo_renderGo (it :: rest)
      (decide ((blocksOf (it :: rest)).length > 1)) 0 h
    refine ⟨strip (joinNL ps), hparse, ?_, ?_⟩
    · unfold blocks_to_markdown
      rw [hps]
      rfl
    · rw [normalizeStr_strip, normalizeStr_joinNL, hnorm]
      rw [show normalizeStr (renderDoc (it :: rest))
            = normLines (splitNL (renderDoc (it :: rest))) from rfl, hsplit]

/-- C1 witness: a concrete canonical document exercising a heading, a
paragraph, a bulleted and a numbered item, a fenced code block with a
language tag and a checked to-do; it is clean, and the round trip applies
to it. -/
theorem c1_round_trip_canonical_witness :
    CleanDoc [MdItem.h1 (lit "Title"), MdItem.para (lit "Body text"),
        MdItem.bullet (lit "A"), MdItem.numbered (lit "B"),
        MdItem.code (lit "py") [lit "x = 1"], MdItem.todo true (lit "T")]
    ∧ (∃ s, parse_markdown_to_blocks (renderDoc
            [MdItem.h1 (lit "Title"), MdItem.para (lit "Body text"),
             MdItem.bullet (lit "A"), MdItem.numbered (lit "B"),
             MdItem.code (lit "py") [lit "x = 1"], MdItem.todo true (lit "T")])
          = .ok (blocksOf
            [MdItem.h1 (lit "Title"), MdItem.para (lit "Body text"),
             MdItem.bullet (lit "A"), MdItem.numbered (lit "B"),
             MdItem.code (lit "py") [lit "x = 1"], MdItem.todo true (lit "T")])
        ∧ blocks_to_markdown (blocksOf
            [MdItem.h1 (lit "Title"), MdItem.para (lit "Body text"),
             MdItem.bullet (lit "A"), MdItem.numbered (lit "B"),
             MdItem.code (lit "py") [lit "x = 1"], MdItem.todo true (lit "T")])
          = some s
        ∧ normalizeStr s = normalizeStr (renderDoc
            [MdItem.h1 (lit "Title"), MdItem.para (lit "Body text"),
             MdItem.bullet (lit "A"), MdItem.numbered (lit "B"),
             MdItem.code (lit "py") [lit "x = 1"], MdItem.todo true (lit "T")])) :=
  ⟨by decide, c1_round_trip_canonical _ (by decide)⟩

end NotionMcp
